import Mathlib

/-!
# GoClaw: archive reader, level decoder, level grid and physics

A shallow embedding of the Go sources

* `go/assets/rez.go`  (`OpenRez`, `RezArchive.Extract`, `RezArchive.List`, `RezArchive.Close`),
* `go/assets/wap.go`  (`LoadWap`),
* `go/game/level.go`  (`NewLevel`, `Level.IsSolid`, `Level.WorldToTile`),
* `go/game/camera.go` (`NewCamera`, `Camera.Follow`),
* `go/game/player.go` and `go/game/collectible.go` (`NewPlayer`, `NewCollectible`,
  `Collectible.Apply`),
* `go/physics/physics.go` (`ApplyGravity`, `ResolveCollisionX`, `ResolveCollisionY`,
  `AABB.Overlaps`),

followed by theorems about them.

Modelling conventions.

* A byte is a `Fin 256`; a `uint32` is a natural number below `2 ^ 32`; a Go `int` is an `Int`.
* A Go result pair `(value, error)` is a pair of `Option`s, `none` standing for `nil`, so that
  "no value is returned together with an error" is a property to be proved, not one the type gives.
* The file system is a function from paths to contents.  An open file carries its contents, the
  cursor of sequential reads, and a log of the positioned reads performed on it.
* A run-time panic (index out of range, negative `make` length) is the result `none`.
* `ApplyGravity` and `Camera` compute on `F64`, the `float64` values: not-a-number, the two
  infinities and the finite values, with rounding to nearest (ties to even, `binary64Round`),
  overflow to the infinities, and comparisons that are false on not-a-number.
* `AABB.Overlaps` takes the rounding `fl` applied to the result of each addition:
  `binary64Round` for the arithmetic of Go, the identity for exact arithmetic.
* The remaining `float64` fields and the placeholders `ResolveCollisionX` and
  `ResolveCollisionY` are over exact rationals; every concrete input used for them is a
  binary64 value on which the operations performed are exact (`500 * 0.1` rounds to `50` in
  binary64).
* An arithmetic operation on `int` wraps around at 64 bits (`wrapInt64`).
-/

namespace GoClaw

/-! ## Files -/

/-- A byte. -/
abbrev Byte := Fin 256

/-- Errors of the operating-system and `io` layer. -/
inductive OsError
  | notExist
  | EOF
  | unexpectedEOF
  | closed
  deriving DecidableEq, Repr

/-- The file system: the contents of each existing file. -/
abbrev FileSystem := String → Option (List Byte)

/-- An open `*os.File`: contents, cursor of the sequential reads, whether it was closed, and the
log of `(offset, length)` of every `ReadAt` call made on it. -/
structure File where
  data : List Byte
  pos : Nat
  closed : Bool
  readAtLog : List (Nat × Nat)
  deriving DecidableEq, Repr

/-- The call `os.Open(path)`. -/
def osOpen (fs : FileSystem) (path : String) : Except OsError File :=
  match fs path with
  | none => .error .notExist
  | some d => .ok { data := d, pos := 0, closed := false, readAtLog := [] }

/-- The call `io.ReadFull(f, buf)` with `len(buf) = n`: exactly `n` bytes from the cursor, or
`EOF` when none is left and `ErrUnexpectedEOF` when fewer than `n` are. -/
def File.ReadFull (f : File) (n : Nat) : Except OsError (List Byte) × File :=
  if n = 0 then (.ok [], f)
  else if f.closed then (.error .closed, f)
  else
    let got := (f.data.drop f.pos).take n
    let f1 := { f with pos := f.pos + got.length }
    if got.length = n then (.ok got, f1)
    else if got.length = 0 then (.error .EOF, f1)
    else (.error .unexpectedEOF, f1)

/-- The decoder `binary.LittleEndian.Uint32`. -/
def littleEndianUint32 (bs : List Byte) : Nat :=
  match bs with
  | [b0, b1, b2, b3] => b0.val + b1.val * 2 ^ 8 + b2.val * 2 ^ 16 + b3.val * 2 ^ 24
  | _ => 0

/-- The call `binary.Read(f, binary.LittleEndian, &v)` for a `uint32` variable `v`: four bytes
are read with `io.ReadFull`; on failure the error is returned and `v` is left untouched. -/
def File.binaryReadUint32 (f : File) : Except OsError Nat × File :=
  match f.ReadFull 4 with
  | (.ok bs, f1) => (.ok (littleEndianUint32 bs), f1)
  | (.error e, f1) => (.error e, f1)

/-- The call `f.ReadAt(buf, off)` with `len(buf) = n`: a positioned read that leaves the cursor
alone; fewer than `n` bytes available is the error `EOF`. The call is recorded in the log. -/
def File.ReadAt (f : File) (n off : Nat) : Except OsError (List Byte) × File :=
  let f1 := { f with readAtLog := f.readAtLog ++ [(off, n)] }
  if n = 0 then (.ok [], f1)
  else if f.closed then (.error .closed, f1)
  else
    let got := (f.data.drop off).take n
    if got.length = n then (.ok got, f1) else (.error .EOF, f1)

/-- The call `f.Close()`. -/
def File.Close (f : File) : Option OsError × File :=
  if f.closed then (some .closed, f) else (none, { f with closed := true })

/-! ## `assets/rez.go` -/

/-- The archive signature `rezMagic`: the bytes `'R', 'E', 'Z', 0`. -/
def rezMagic : List Byte := [82, 69, 90, 0]

/-- A single file entry in the archive. -/
structure rezEntry where
  Offset : Nat
  Size : Nat
  deriving DecidableEq, Repr

/-- An opened archive. The Go map `entries` is an association list. -/
structure RezArchive where
  file : File
  entries : List (String × rezEntry)
  deriving DecidableEq, Repr

/-- The errors `rez.go` builds with `fmt.Errorf`, one constructor per message. -/
inductive RezError
  | cannotOpen (path : String) (cause : OsError)
  | readHeader (cause : OsError)
  | invalidMagic (path : String)
  | fileNotFound (name : String)
  | readFailed (name : String) (cause : OsError)
  deriving DecidableEq, Repr

/-- The function `OpenRez`. The two `binary.Read` calls drop their error results, and the
directory is not parsed: the entry table of the returned archive is the empty map. -/
def OpenRez (fs : FileSystem) (path : String) : Option RezArchive × Option RezError :=
  match osOpen fs path with
  | .error e => (none, some (.cannotOpen path e))
  | .ok f =>
    match f.ReadFull 4 with
    | (.error e, _) => (none, some (.readHeader e))
    | (.ok magic, f1) =>
      if magic ≠ rezMagic then (none, some (.invalidMagic path))
      else
        let (_version, f2) := f1.binaryReadUint32
        let (_dirOffset, f3) := f2.binaryReadUint32
        (some { file := f3, entries := [] }, none)

/-- The method `RezArchive.Extract`, returning also the archive as the call leaves it. -/
def RezArchive.Extract (r : RezArchive) (name : String) :
    (Option (List Byte) × Option RezError) × RezArchive :=
  match r.entries.lookup name with
  | none => ((none, some (.fileNotFound name)), r)
  | some entry =>
    match r.file.ReadAt entry.Size entry.Offset with
    | (.error e, f1) => ((none, some (.readFailed name e)), { r with file := f1 })
    | (.ok buf, f1) => ((some buf, none), { r with file := f1 })

/-- The method `RezArchive.Close`. -/
def RezArchive.Close (r : RezArchive) : Option OsError × RezArchive :=
  ((r.file.Close).1, { r with file := (r.file.Close).2 })

/-- The method `RezArchive.List`: the keys of the entry table (in the order of the list). -/
def RezArchive.List (r : RezArchive) : List String :=
  r.entries.map Prod.fst

/-! ## `assets/wap.go` -/

/-- The level signature `wapMagic`: the bytes `'W', 'W', 'D', 0`. -/
def wapMagic : List Byte := [87, 87, 68, 0]

/-- The parsed header of a level file. -/
structure WapHeader where
  Version : Nat
  LevelName : String
  TileWidth : Nat
  TileHeight : Nat
  PlaneCount : Nat
  deriving DecidableEq, Repr

/-- A tile plane. -/
structure WapPlane where
  Name : String
  Width : Nat
  Height : Nat
  TileData : List Nat
  deriving DecidableEq, Repr

/-- A placed object (the Go field `Type` is `Type_` here). -/
structure WapObject where
  Name : String
  X : Int
  Y : Int
  Width : Int
  Height : Int
  Type_ : String
  deriving DecidableEq, Repr

/-- All parsed data of a level file. -/
structure WapLevel where
  Header : WapHeader
  Planes : List WapPlane
  Objects : List WapObject
  deriving DecidableEq, Repr

/-- The errors `wap.go` builds with `fmt.Errorf`, one constructor per message. -/
inductive WapError
  | cannotOpen (path : String) (cause : OsError)
  | readHeader (cause : OsError)
  | invalidMagic (path : String)
  deriving DecidableEq, Repr

/-- The zero value of `WapHeader`, the initial value of `var header WapHeader`. -/
def WapHeader.zero : WapHeader :=
  { Version := 0, LevelName := "", TileWidth := 0, TileHeight := 0, PlaneCount := 0 }

/-- The function `LoadWap`. After the signature only `header.Version` is read, the error of that
read is dropped, and the level is returned with no planes and no objects. -/
def LoadWap (fs : FileSystem) (path : String) : Option WapLevel × Option WapError :=
  match osOpen fs path with
  | .error e => (none, some (.cannotOpen path e))
  | .ok f =>
    match f.ReadFull 4 with
    | (.error e, _) => (none, some (.readHeader e))
    | (.ok magic, f1) =>
      if magic ≠ wapMagic then (none, some (.invalidMagic path))
      else
        let header : WapHeader :=
          match (f1.binaryReadUint32).1 with
          | .ok v => { WapHeader.zero with Version := v }
          | .error _ => WapHeader.zero
        (some { Header := header, Planes := [], Objects := [] }, none)

/-! ## `game/level.go` -/

/-- A single tile of the level grid. -/
structure Tile where
  ID : Int
  Solid : Bool
  Platform : Bool
  Ladder : Bool
  Deadly : Bool
  deriving DecidableEq, Repr

/-- The zero value of `Tile`, with which `make([]Tile, w)` fills a row. -/
def Tile.zero : Tile :=
  { ID := 0, Solid := false, Platform := false, Ladder := false, Deadly := false }

/-- A placed object of a level (the Go field `Type` is `Type_` here). -/
structure LevelObject where
  Type_ : String
  X : ℚ
  Y : ℚ
  deriving DecidableEq

/-- All data of a single game level. -/
structure Level where
  Name : String
  Width : Int
  Height : Int
  TileWidth : Int
  TileHeight : Int
  Tiles : List (List Tile)
  Objects : List LevelObject
  StartX : ℚ
  StartY : ℚ
  deriving DecidableEq

/-- The function `NewLevel`. `make` panics on a negative length: `make([][]Tile, h)` when
`h < 0`, and `make([]Tile, w)`, run once per row, when `w < 0` and there is a row. Allocation
limits are not modelled. -/
def NewLevel (name : String) (w h tw th : Int) : Option Level :=
  if h < 0 then none
  else if 0 < h ∧ w < 0 then none
  else
    some { Name := name, Width := w, Height := h, TileWidth := tw, TileHeight := th,
           Tiles := List.replicate h.toNat (List.replicate w.toNat Tile.zero),
           Objects := [], StartX := 0, StartY := 0 }

/-- The method `Level.IsSolid`; `none` is an index-out-of-range panic in `l.Tiles[ty][tx]`. -/
def Level.IsSolid (l : Level) (tx ty : Int) : Option Bool :=
  if tx < 0 ∨ ty < 0 ∨ tx ≥ l.Width ∨ ty ≥ l.Height then some true
  else
    match l.Tiles[ty.toNat]? with
    | none => none
    | some row =>
      match row[tx.toNat]? with
      | none => none
      | some t => some t.Solid

/-! ## `float64` values and arithmetic -/

/-- Rounding of a rational to the nearest integer, ties to the even one. -/
def roundHalfEven (x : ℚ) : Int :=
  let f := ⌊x⌋
  let r := x - f
  if r < 1 / 2 then f
  else if r > 1 / 2 then f + 1
  else if f % 2 = 0 then f else f + 1

/-- The binary64 value nearest to `x` (ties to even): 53 significant bits, the exponent of the
leading bit at least `-1022` (below that the spacing stays `2 ^ (-1074)`), the exponent
unbounded above: overflow to an infinity is decided by `F64.round`. -/
def binary64Round (x : ℚ) : ℚ :=
  if x = 0 then 0
  else
    let e := max (Int.log 2 |x|) (-1022)
    let ulp : ℚ := 2 ^ (e - 52)
    roundHalfEven (x / ulp) * ulp

/-- A `float64` value: not-a-number, the two infinities, or a finite value. The two zeros are
one value: they compare equal, and no operation below tells them apart. -/
inductive F64
  | nan
  | negInf
  | posInf
  | fin (q : ℚ)
  deriving DecidableEq

/-- The largest finite `float64`, `(2 ^ 53 - 1) * 2 ^ 971`. -/
def maxFloat64 : ℚ := (2 ^ 53 - 1) * 2 ^ 971

/-- The `float64` result of an operation whose exact result is `q`: the nearest binary64 value,
or an infinity when that value is beyond the largest finite one. -/
def F64.round (q : ℚ) : F64 :=
  if binary64Round q > maxFloat64 then .posInf
  else if binary64Round q < -maxFloat64 then .negInf
  else .fin (binary64Round q)

/-- The `float64` negation `-a`. -/
def F64.neg : F64 → F64
  | .nan => .nan
  | .negInf => .posInf
  | .posInf => .negInf
  | .fin a => .fin (-a)

/-- The `float64` sum `a + b`. -/
def F64.add : F64 → F64 → F64
  | .nan, _ => .nan
  | _, .nan => .nan
  | .posInf, .negInf => .nan
  | .negInf, .posInf => .nan
  | .posInf, _ => .posInf
  | _, .posInf => .posInf
  | .negInf, _ => .negInf
  | _, .negInf => .negInf
  | .fin a, .fin b => F64.round (a + b)

/-- The `float64` difference `a - b`. -/
def F64.sub (a b : F64) : F64 :=
  F64.add a (F64.neg b)

/-- The `float64` product `a * b`. -/
def F64.mul : F64 → F64 → F64
  | .nan, _ => .nan
  | _, .nan => .nan
  | .posInf, .posInf => .posInf
  | .posInf, .negInf => .negInf
  | .negInf, .posInf => .negInf
  | .negInf, .negInf => .posInf
  | .posInf, .fin b => if b = 0 then .nan else if 0 < b then .posInf else .negInf
  | .negInf, .fin b => if b = 0 then .nan else if 0 < b then .negInf else .posInf
  | .fin a, .posInf => if a = 0 then .nan else if 0 < a then .posInf else .negInf
  | .fin a, .negInf => if a = 0 then .nan else if 0 < a then .negInf else .posInf
  | .fin a, .fin b => F64.round (a * b)

/-- The `float64` quotient `a / b` for a finite divisor other than zero or an infinite one; a
zero divisor, whose sign decides the result, is given the result `nan` here and is never used
below. -/
def F64.div : F64 → F64 → F64
  | .nan, _ => .nan
  | _, .nan => .nan
  | .posInf, .fin b => if b = 0 then .nan else if 0 < b then .posInf else .negInf
  | .negInf, .fin b => if b = 0 then .nan else if 0 < b then .negInf else .posInf
  | .posInf, _ => .nan
  | .negInf, _ => .nan
  | .fin _, .posInf => .fin 0
  | .fin _, .negInf => .fin 0
  | .fin a, .fin b => if b = 0 then .nan else F64.round (a / b)

/-- The `float64` comparison `a < b`: false when either side is not-a-number. -/
def F64.lt : F64 → F64 → Bool
  | .nan, _ => false
  | _, .nan => false
  | _, .negInf => false
  | .negInf, _ => true
  | .posInf, _ => false
  | .fin _, .posInf => true
  | .fin a, .fin b => decide (a < b)

/-- The `float64` comparison `a > b`. -/
def F64.gt (a b : F64) : Bool :=
  F64.lt b a

/-- The `float64` comparison `a <= b`: false when either side is not-a-number. -/
def F64.le : F64 → F64 → Bool
  | .nan, _ => false
  | _, .nan => false
  | .negInf, _ => true
  | _, .negInf => false
  | _, .posInf => true
  | .posInf, .fin _ => false
  | .fin a, .fin b => decide (a ≤ b)

/-- The `float64` comparison `a >= b`. -/
def F64.ge (a b : F64) : Bool :=
  F64.le b a

/-! ## `physics/physics.go` -/

/-- The constant `Gravity`. -/
def Gravity : ℚ := 800

/-- The constant `MaxFallSpeed`. -/
def MaxFallSpeed : ℚ := 600

/-- The function `ApplyGravity`. -/
def ApplyGravity (velY dt : F64) : F64 :=
  let velY1 := F64.add velY (F64.mul (.fin Gravity) dt)
  if F64.gt velY1 (.fin MaxFallSpeed) then .fin MaxFallSpeed else velY1

/-- The function `ResolveCollisionX`: the tentative position, no tile is consulted. -/
def ResolveCollisionX (x _y _width _height velX dt : ℚ) (_isSolid : Int → Int → Bool)
    (_tileW _tileH : Int) : ℚ :=
  let newX := x + velX * dt
  newX

/-- The function `ResolveCollisionY`: the tentative position and `grounded = false`, no tile is
consulted. -/
def ResolveCollisionY (_x y _width _height velY dt : ℚ) (_isSolid : Int → Int → Bool)
    (_tileW _tileH : Int) : ℚ × Bool :=
  let newY := y + velY * dt
  let grounded := false
  (newY, grounded)

/-! ## Concrete inputs -/

/-- The 48 bytes stored in the test archive under the path `levels/test.wwd`. -/
def testWwdBytes : List Byte := wapMagic ++ List.replicate 44 7

/-- An archive file with one entry `levels/test.wwd` at offset 100, size 48: the 12-byte header
(signature, version 1, directory offset 148), padding up to offset 100, the 48 bytes of the
entry, and at offset 148 one directory record `(pathLen, path, offset, size)` with the path
length 15, the 15 bytes of the path, the offset 100 and the size 48. -/
def testArchiveBytes : List Byte :=
  rezMagic ++ [1, 0, 0, 0] ++ [148, 0, 0, 0] ++ List.replicate 88 0 ++ testWwdBytes ++
    [15, 0, 0, 0] ++
    [108, 101, 118, 101, 108, 115, 47, 116, 101, 115, 116, 46, 119, 119, 100] ++
    [100, 0, 0, 0] ++ [48, 0, 0, 0]

/-- A level file made of the four signature bytes only. -/
def magicOnlyWwd : List Byte := [87, 87, 68, 0]

/-- One plane record of the level layout: empty name, width 1, height 1, one tile index 0. -/
def onePlaneBytes : List Byte := [0, 0, 0, 0] ++ [1, 0, 0, 0] ++ [1, 0, 0, 0] ++ [0, 0, 0, 0]

/-- A level file whose header (version 1, empty name, 32 by 32 tiles) declares 3 planes and
which ends after the second plane. -/
def twoOfThreePlanesWwd : List Byte :=
  [87, 87, 68, 0] ++ [1, 0, 0, 0] ++ [0, 0, 0, 0] ++ [32, 0, 0, 0] ++ [32, 0, 0, 0] ++
    [3, 0, 0, 0] ++ onePlaneBytes ++ onePlaneBytes

/-- A tile classifier in which exactly row 5 is solid. -/
def row5Solid (_tx ty : Int) : Bool := decide (ty = 5)

/-- The method value `l.IsSolid` handed to the physics functions as `isSolid`. -/
def Level.isSolidFunc (l : Level) (tx ty : Int) : Bool :=
  l.IsSolid tx ty == some true

/-! ## `game/level.go`: world coordinates -/

/-- The conversion `int(x)` of a `float64` to `int`: the fractional part is dropped, that is,
truncation toward zero. Values beyond the `int` range are not modelled. -/
def floatToInt (x : ℚ) : Int :=
  if 0 ≤ x then ⌊x⌋ else ⌈x⌉

/-- The method `Level.WorldToTile`. The integer quotient `/` of Go truncates toward zero
(`Int.tdiv`) and panics on a zero divisor (`none`). -/
def Level.WorldToTile (l : Level) (wx wy : ℚ) : Option (Int × Int) :=
  if l.TileWidth = 0 ∨ l.TileHeight = 0 then none
  else some (Int.tdiv (floatToInt wx) l.TileWidth, Int.tdiv (floatToInt wy) l.TileHeight)

/-! ## `game/camera.go` -/

/-- The viewport into the game world. -/
structure Camera where
  X : F64
  Y : F64
  Width : F64
  Height : F64
  Smoothing : F64
  deriving DecidableEq

/-- The function `NewCamera`; the constant `0.1` is the `float64` nearest to one tenth. -/
def NewCamera (w h : F64) : Camera :=
  { X := .fin 0, Y := .fin 0, Width := w, Height := h, Smoothing := F64.round (1 / 10) }

/-- The method `Camera.Follow`, returning the camera as the call leaves it. -/
def Camera.Follow (c : Camera) (targetX targetY levelW levelH : F64) : Camera :=
  let desiredX := F64.sub targetX (F64.div c.Width (.fin 2))
  let desiredY := F64.sub targetY (F64.div c.Height (.fin 2))
  let c1 := { c with X := F64.add c.X (F64.mul (F64.sub desiredX c.X) c.Smoothing) }
  let c2 := { c1 with Y := F64.add c1.Y (F64.mul (F64.sub desiredY c1.Y) c1.Smoothing) }
  let c3 := if F64.lt c2.X (.fin 0) then { c2 with X := .fin 0 } else c2
  let c4 := if F64.lt c3.Y (.fin 0) then { c3 with Y := .fin 0 } else c3
  let maxX := F64.sub levelW c4.Width
  let maxY := F64.sub levelH c4.Height
  let c5 := if F64.gt maxX (.fin 0) && F64.gt c4.X maxX then { c4 with X := maxX } else c4
  let c6 := if F64.gt maxY (.fin 0) && F64.gt c5.Y maxY then { c5 with Y := maxY } else c5
  c6

/-! ## `game/player.go` and `game/collectible.go` -/

/-- The value an `int` (64 bits, two's complement) holds after an arithmetic operation whose
exact result is `n`. -/
def wrapInt64 (n : Int) : Int :=
  (n + 2 ^ 63) % 2 ^ 64 - 2 ^ 63

/-- The type `PlayerState`, an `int`. -/
abbrev PlayerState := Int

/-- The player-controlled character. -/
structure Player where
  X : ℚ
  Y : ℚ
  VelX : ℚ
  VelY : ℚ
  Width : ℚ
  Height : ℚ
  State : PlayerState
  FacingLeft : Bool
  Health : Int
  Lives : Int
  Score : Int
  Pistol : Int
  Magic : Int
  Dynamite : Int
  AnimFrame : Int
  AnimTimer : ℚ
  deriving DecidableEq

/-- The function `NewPlayer`. -/
def NewPlayer (x y : ℚ) : Player :=
  { X := x, Y := y, VelX := 0, VelY := 0, Width := 32, Height := 64, State := 0,
    FacingLeft := false, Health := 100, Lives := 6, Score := 0, Pistol := 25, Magic := 5,
    Dynamite := 0, AnimFrame := 0, AnimTimer := 0 }

/-- The type `CollectibleType`, an `int`; its constants are numbered by `iota` from 0. -/
abbrev CollectibleType := Int

/-- The constant `CollectTreasureGold`. -/
def CollectTreasureGold : CollectibleType := 0
/-- The constant `CollectTreasureSilver`. -/
def CollectTreasureSilver : CollectibleType := 1
/-- The constant `CollectTreasureBronze`. -/
def CollectTreasureBronze : CollectibleType := 2
/-- The constant `CollectTreasureCrown`. -/
def CollectTreasureCrown : CollectibleType := 3
/-- The constant `CollectTreasureRing`. -/
def CollectTreasureRing : CollectibleType := 4
/-- The constant `CollectTreasureChalice`. -/
def CollectTreasureChalice : CollectibleType := 5
/-- The constant `CollectTreasureCross`. -/
def CollectTreasureCross : CollectibleType := 6
/-- The constant `CollectTreasureScepter`. -/
def CollectTreasureScepter : CollectibleType := 7
/-- The constant `CollectTreasureGecko`. -/
def CollectTreasureGecko : CollectibleType := 8
/-- The constant `CollectHealth`. -/
def CollectHealth : CollectibleType := 9
/-- The constant `CollectExtraLife`. -/
def CollectExtraLife : CollectibleType := 10
/-- The constant `CollectPistolAmmo`. -/
def CollectPistolAmmo : CollectibleType := 11
/-- The constant `CollectMagicAmmo`. -/
def CollectMagicAmmo : CollectibleType := 12
/-- The constant `CollectDynamiteAmmo`. -/
def CollectDynamiteAmmo : CollectibleType := 13
/-- The constant `CollectPowerupCatnip`. -/
def CollectPowerupCatnip : CollectibleType := 14
/-- The constant `CollectPowerupGhost`. -/
def CollectPowerupGhost : CollectibleType := 15
/-- The constant `CollectPowerupFireSword`. -/
def CollectPowerupFireSword : CollectibleType := 16
/-- The constant `CollectMapPiece`. -/
def CollectMapPiece : CollectibleType := 17

/-- A pickup item in the game world (the Go field `Type` is `Type_` here). -/
structure Collectible where
  X : ℚ
  Y : ℚ
  Width : ℚ
  Height : ℚ
  Type_ : CollectibleType
  Value : Int
  Collected : Bool
  AnimFrame : Int
  AnimTimer : ℚ
  deriving DecidableEq

/-- The function `NewCollectible`. -/
def NewCollectible (t : CollectibleType) (x y : ℚ) (value : Int) : Collectible :=
  { X := x, Y := y, Width := 24, Height := 24, Type_ := t, Value := value,
    Collected := false, AnimFrame := 0, AnimTimer := 0 }

/-- The method `Collectible.Apply`, returning the collectible and the player as the call leaves
them. The `switch` has no default: the powerups, the map piece and any other type value change
nothing but `Collected`. -/
def Collectible.Apply (c : Collectible) (p : Player) : Collectible × Player :=
  if c.Collected then (c, p)
  else
    let c1 := { c with Collected := true }
    if c.Type_ = CollectTreasureGold ∨ c.Type_ = CollectTreasureSilver ∨
        c.Type_ = CollectTreasureBronze ∨ c.Type_ = CollectTreasureCrown ∨
        c.Type_ = CollectTreasureRing ∨ c.Type_ = CollectTreasureChalice ∨
        c.Type_ = CollectTreasureCross ∨ c.Type_ = CollectTreasureScepter ∨
        c.Type_ = CollectTreasureGecko then
      (c1, { p with Score := wrapInt64 (p.Score + c.Value) })
    else if c.Type_ = CollectHealth then
      let p1 := { p with Health := wrapInt64 (p.Health + c.Value) }
      (c1, if p1.Health > 100 then { p1 with Health := 100 } else p1)
    else if c.Type_ = CollectExtraLife then
      (c1, { p with Lives := wrapInt64 (p.Lives + 1) })
    else if c.Type_ = CollectPistolAmmo then
      (c1, { p with Pistol := wrapInt64 (p.Pistol + c.Value) })
    else if c.Type_ = CollectMagicAmmo then
      (c1, { p with Magic := wrapInt64 (p.Magic + c.Value) })
    else if c.Type_ = CollectDynamiteAmmo then
      (c1, { p with Dynamite := wrapInt64 (p.Dynamite + c.Value) })
    else (c1, p)

/-! ## `physics/physics.go`: bounding boxes -/

/-- An axis-aligned bounding box. -/
structure AABB where
  X : ℚ
  Y : ℚ
  Width : ℚ
  Height : ℚ
  deriving DecidableEq

/-- The method `AABB.Overlaps`. `fl` is the rounding applied to the result of each `float64`
addition: `binary64Round` for the arithmetic of Go, the identity for exact arithmetic. -/
def AABB.Overlaps (fl : ℚ → ℚ) (a b : AABB) : Bool :=
  decide (a.X < fl (b.X + b.Width)) &&
    decide (fl (a.X + a.Width) > b.X) &&
    decide (a.Y < fl (b.Y + b.Height)) &&
    decide (fl (a.Y + a.Height) > b.Y)

/-- The method `AABB.Center`. -/
def AABB.Center (a : AABB) : ℚ × ℚ :=
  (a.X + a.Width / 2, a.Y + a.Height / 2)

/-! # Theorems -/

/-! ## `float64` arithmetic -/

/-- A rational in `[z, z + 1/2)` rounds to the integer `z`. -/
theorem roundHalfEven_of_lt (x : ℚ) (z : ℤ) (h1 : (z : ℚ) ≤ x) (h2 : x < z + 1 / 2) :
    roundHalfEven x = z := by
  have hf : ⌊x⌋ = z := Int.floor_eq_iff.mpr ⟨h1, by linarith⟩
  unfold roundHalfEven
  simp only [hf]
  rw [if_pos (by linarith)]

/-- The value of `binary64Round` at a nonzero `x` whose leading bit has exponent
`e ≥ -1022`, given the integer nearest to `x / 2 ^ (e - 52)`. -/
theorem binary64Round_eq (x : ℚ) (e z : ℤ) (hx : x ≠ 0) (he : Int.log 2 |x| = e)
    (hmin : -1022 ≤ e) (hz : roundHalfEven (x / 2 ^ (e - 52)) = z) :
    binary64Round x = z * 2 ^ (e - 52) := by
  unfold binary64Round
  rw [if_neg hx]
  simp only [he, max_eq_left hmin, hz]

/-- The value of `binary64Round` at a natural number `n` with `2 ^ e ≤ n < 2 ^ (e + 1)`, given
the integer nearest to `n / 2 ^ (e - 52)`. -/
theorem binary64Round_natCast (n e : ℕ) (z : ℤ) (h1 : 2 ^ e ≤ n) (h2 : n < 2 ^ (e + 1))
    (hz : roundHalfEven ((n : ℚ) / 2 ^ ((e : ℤ) - 52)) = z) :
    binary64Round (n : ℚ) = z * 2 ^ ((e : ℤ) - 52) := by
  have hpos : 0 < n := lt_of_lt_of_le (pow_pos (by norm_num) e) h1
  have hx : (n : ℚ) ≠ 0 := Nat.cast_ne_zero.mpr (Nat.pos_iff_ne_zero.mp hpos)
  have he : Int.log 2 |(n : ℚ)| = (e : ℤ) := by
    rw [abs_of_nonneg (Nat.cast_nonneg n), Int.log_natCast,
      Nat.log_eq_of_pow_le_of_lt_pow h1 h2]
  exact binary64Round_eq (n : ℚ) e z hx he (by omega) hz

/-- A rational in `(z + 1/2, z + 1)` rounds to the integer `z + 1`. -/
theorem roundHalfEven_of_gt (x : ℚ) (z : ℤ) (h1 : (z : ℚ) + 1 / 2 < x) (h2 : x < z + 1) :
    roundHalfEven x = z + 1 := by
  have hf : ⌊x⌋ = z := Int.floor_eq_iff.mpr ⟨by linarith, h2⟩
  unfold roundHalfEven
  simp only [hf]
  rw [if_neg (by linarith), if_pos (by linarith)]

/-- The rational `z + 1/2` rounds to `z` when `z` is even and to `z + 1` when `z` is odd. -/
theorem roundHalfEven_tie (z : ℤ) :
    roundHalfEven ((z : ℚ) + 1 / 2) = if z % 2 = 0 then z else z + 1 := by
  have hf : ⌊(z : ℚ) + 1 / 2⌋ = z := Int.floor_eq_iff.mpr ⟨by linarith, by linarith⟩
  unfold roundHalfEven
  simp only [hf]
  rw [if_neg (by linarith), if_neg (by linarith)]

/-- Known values of binary64 rounding: `0.1` rounds to `3602879701896397 / 2 ^ 55`, and the
ties `2 ^ 53 + 1` and `2 ^ 53 + 3` round to the even neighbours `2 ^ 53` and `2 ^ 53 + 4`. -/
theorem binary64Round_examples :
    binary64Round (1 / 10) = 3602879701896397 / 2 ^ 55 ∧
    binary64Round (2 ^ 53 + 1) = 2 ^ 53 ∧
    binary64Round (2 ^ 53 + 3) = 2 ^ 53 + 4 := by
  refine ⟨?_, ?_, ?_⟩
  · have he : Int.log 2 |(1 / 10 : ℚ)| = -4 := by
      rw [abs_of_nonneg (by norm_num), Int.log_of_right_le_one 2 (by norm_num)]
      have h10 : ⌈((1 / 10 : ℚ))⁻¹⌉₊ = 10 := by
        rw [show ((1 / 10 : ℚ))⁻¹ = ((10 : ℕ) : ℚ) by norm_num, Nat.ceil_natCast]
      rw [h10]
      have hc : Nat.clog 2 10 = 4 :=
        le_antisymm ((Nat.le_pow_iff_clog_le (by norm_num)).mp (by norm_num))
          ((Nat.pow_lt_iff_lt_clog (by norm_num)).mp (by norm_num : 2 ^ 3 < 10))
      rw [hc]; rfl
    rw [binary64Round_eq (1 / 10) (-4) 7205759403792794 (by norm_num) he (by norm_num)
      (by
        have h := roundHalfEven_of_gt ((1 / 10 : ℚ) / 2 ^ ((-4 : ℤ) - 52)) 7205759403792793
          (by norm_num) (by norm_num)
        rw [h]; norm_num)]
    norm_num
  · have hz : roundHalfEven (((2 ^ 53 + 1 : ℕ) : ℚ) / 2 ^ (((53 : ℕ) : ℤ) - 52)) = 2 ^ 52 := by
      rw [show ((2 ^ 53 + 1 : ℕ) : ℚ) / 2 ^ (((53 : ℕ) : ℤ) - 52) = ((2 ^ 52 : ℤ) : ℚ) + 1 / 2
        by norm_num, roundHalfEven_tie, if_pos (by norm_num)]
    have h := binary64Round_natCast (2 ^ 53 + 1) 53 (2 ^ 52) (by norm_num) (by norm_num) hz
    rw [show ((2 ^ 53 + 1 : ℕ) : ℚ) = 2 ^ 53 + 1 by norm_num] at h
    rw [h]; norm_num
  · have hz : roundHalfEven (((2 ^ 53 + 3 : ℕ) : ℚ) / 2 ^ (((53 : ℕ) : ℤ) - 52)) =
        2 ^ 52 + 1 + 1 := by
      rw [show ((2 ^ 53 + 3 : ℕ) : ℚ) / 2 ^ (((53 : ℕ) : ℤ) - 52) =
          ((2 ^ 52 + 1 : ℤ) : ℚ) + 1 / 2 by norm_num,
        roundHalfEven_tie, if_neg (by norm_num)]
    have h := binary64Round_natCast (2 ^ 53 + 3) 53 (2 ^ 52 + 1 + 1) (by norm_num)
      (by norm_num) hz
    rw [show ((2 ^ 53 + 3 : ℕ) : ℚ) = 2 ^ 53 + 3 by norm_num] at h
    rw [h]; norm_num

/-- An integer of magnitude below `2 ^ 53` is a binary64 value. -/
theorem binary64Round_intCast (n : ℤ) (hn : |n| < 2 ^ 53) : binary64Round (n : ℚ) = n := by
  by_cases h0 : n = 0
  · subst h0
    simp [binary64Round]
  · have hx : (n : ℚ) ≠ 0 := Int.cast_ne_zero.mpr h0
    have habs : |(n : ℚ)| = ((n.natAbs : ℕ) : ℚ) := by
      rw [← Int.cast_abs, Int.abs_eq_natAbs, Int.cast_natCast]
    have hpos : n.natAbs ≠ 0 := Int.natAbs_ne_zero.mpr h0
    have hlt : n.natAbs < 2 ^ 53 := by
      have : ((n.natAbs : ℕ) : ℤ) < 2 ^ 53 := by rw [← Int.abs_eq_natAbs]; exact hn
      exact_mod_cast this
    have hk : Nat.log 2 n.natAbs < 53 := Nat.log_lt_of_lt_pow hpos hlt
    have he : Int.log 2 |(n : ℚ)| = ((Nat.log 2 n.natAbs : ℕ) : ℤ) := by
      rw [habs, Int.log_natCast]
    obtain ⟨j, hj⟩ : ∃ j : ℕ, ((Nat.log 2 n.natAbs : ℕ) : ℤ) - 52 = -(j : ℤ) :=
      ⟨52 - Nat.log 2 n.natAbs, by omega⟩
    have hulp : (2 : ℚ) ^ (((Nat.log 2 n.natAbs : ℕ) : ℤ) - 52) = ((2 : ℚ) ^ j)⁻¹ := by
      rw [hj, zpow_neg, zpow_natCast]
    have hz : roundHalfEven ((n : ℚ) / 2 ^ (((Nat.log 2 n.natAbs : ℕ) : ℤ) - 52)) =
        n * 2 ^ j := by
      apply roundHalfEven_of_lt
      · rw [hulp, div_inv_eq_mul]; push_cast; exact le_refl _
      · rw [hulp, div_inv_eq_mul]; push_cast; linarith
    rw [binary64Round_eq (n : ℚ) _ _ hx he (by omega) hz, hulp]
    push_cast
    have h2 : ((2 : ℚ) ^ j) ≠ 0 := pow_ne_zero j (by norm_num)
    field_simp

/-- `F64.round` never gives not-a-number. -/
theorem F64.round_ne_nan (q : ℚ) : F64.round q ≠ .nan := by
  unfold F64.round
  split_ifs <;> simp

/-- The `float64` result of an operation whose exact result is an integer of magnitude below
`2 ^ 53` is that integer. -/
theorem F64.round_intCast (n : ℤ) (hn : |n| < 2 ^ 53) : F64.round (n : ℚ) = .fin n := by
  have hmax : (2 : ℚ) ^ 53 ≤ maxFloat64 := by
    unfold maxFloat64
    norm_num
  have hq : |(n : ℚ)| < 2 ^ 53 := by
    have : ((|n| : ℤ) : ℚ) < ((2 ^ 53 : ℤ) : ℚ) := Int.cast_lt.mpr hn
    simpa using this
  have hb := abs_lt.mp hq
  unfold F64.round
  rw [binary64Round_intCast n hn, if_neg (by linarith), if_neg (by linarith)]

/-- A power of two is a fixed point of `binary64Round`. -/
theorem binary64Round_two_pow (k : ℕ) : binary64Round (2 ^ k) = 2 ^ k := by
  have hx : (2 : ℚ) ^ k ≠ 0 := pow_ne_zero k (by norm_num)
  have he : Int.log 2 |(2 : ℚ) ^ k| = (k : ℤ) := by
    rw [abs_of_pos (pow_pos (by norm_num) k)]
    have h := Int.log_natCast (R := ℚ) 2 (2 ^ k)
    rw [Nat.log_pow (by norm_num)] at h
    rw [← h]
    push_cast
    rfl
  have hdiv : (2 : ℚ) ^ k / 2 ^ ((k : ℤ) - 52) = ((2 ^ 52 : ℤ) : ℚ) := by
    rw [zpow_sub₀ (by norm_num), zpow_natCast]
    field_simp
    norm_num
  have hz : roundHalfEven ((2 : ℚ) ^ k / 2 ^ ((k : ℤ) - 52)) = 2 ^ 52 := by
    rw [hdiv]
    exact roundHalfEven_of_lt _ _ (le_refl _) (by linarith)
  rw [binary64Round_eq _ _ _ hx he (by omega) hz, zpow_sub₀ (by norm_num), zpow_natCast]
  push_cast
  field_simp
  ring

/-- The opposite of a power of two is a fixed point of `binary64Round`. -/
theorem binary64Round_neg_two_pow (k : ℕ) : binary64Round (-2 ^ k) = -2 ^ k := by
  have hx : -(2 : ℚ) ^ k ≠ 0 := neg_ne_zero.mpr (pow_ne_zero k (by norm_num))
  have he : Int.log 2 |-(2 : ℚ) ^ k| = (k : ℤ) := by
    rw [abs_neg, abs_of_pos (pow_pos (by norm_num) k)]
    have h := Int.log_natCast (R := ℚ) 2 (2 ^ k)
    rw [Nat.log_pow (by norm_num)] at h
    rw [← h]
    push_cast
    rfl
  have hdiv : -(2 : ℚ) ^ k / 2 ^ ((k : ℤ) - 52) = ((-2 ^ 52 : ℤ) : ℚ) := by
    rw [zpow_sub₀ (by norm_num), zpow_natCast]
    push_cast
    field_simp
    ring
  have hz : roundHalfEven (-(2 : ℚ) ^ k / 2 ^ ((k : ℤ) - 52)) = -2 ^ 52 := by
    rw [hdiv]
    exact roundHalfEven_of_lt _ _ (le_refl _) (by linarith)
  rw [binary64Round_eq _ _ _ hx he (by omega) hz, zpow_sub₀ (by norm_num), zpow_natCast]
  push_cast
  field_simp
  ring

/-- The `float64` results used in the examples below: `2 ^ 1022` is finite, and `-2 ^ 1024`
overflows to the negative infinity. -/
theorem F64.round_examples :
    F64.round (2 ^ 1022) = .fin (2 ^ 1022) ∧ F64.round (-2 ^ 1024) = .negInf := by
  constructor
  · unfold F64.round maxFloat64
    rw [binary64Round_two_pow, if_neg (by norm_num), if_neg (by norm_num)]
  · unfold F64.round maxFloat64
    rw [binary64Round_neg_two_pow, if_neg (by norm_num), if_pos (by norm_num)]

/-- The exponent of the leading bit of a rational `x ≥ 1`, read off the natural number `n` with
`n ≤ x < n + 1`. -/
theorem log_two_of_floor (x : ℚ) (n e : ℕ) (h1 : (n : ℚ) ≤ x) (h2 : x < n + 1)
    (h3 : 2 ^ e ≤ n) (h4 : n < 2 ^ (e + 1)) : Int.log 2 |x| = e := by
  have hn : 1 ≤ n := le_trans (Nat.one_le_two_pow) h3
  have hx : (1 : ℚ) ≤ x := le_trans (by exact_mod_cast hn) h1
  have hfloor : ⌊x⌋₊ = n := (Nat.floor_eq_iff (by linarith)).mpr ⟨h1, h2⟩
  rw [abs_of_pos (by linarith), Int.log_of_one_le_right 2 hx, hfloor,
    Nat.log_eq_of_pow_le_of_lt_pow h3 h4]

/-- For values other than not-a-number, `a < b` false means `b <= a`. -/
theorem F64.not_lt_imp_le (a b : F64) (ha : a ≠ .nan) (hb : b ≠ .nan)
    (h : F64.lt a b = false) : F64.le b a = true := by
  cases a <;> cases b <;> simp_all [F64.lt, F64.le]

/-- `a < b` implies `a <= b`, and neither side is not-a-number. -/
theorem F64.lt_imp_le (a b : F64) (h : F64.lt a b = true) :
    F64.le a b = true ∧ a ≠ .nan ∧ b ≠ .nan := by
  cases a <;> cases b <;> simp_all [F64.lt, F64.le]
  exact h.le

/-- `a <= a` for every value other than not-a-number. -/
theorem F64.le_self (a : F64) (ha : a ≠ .nan) : F64.le a a = true := by
  cases a <;> simp_all [F64.le]

/-- A finite value minus a value other than not-a-number is not not-a-number. -/
theorem F64.sub_fin_left_ne_nan (a : ℚ) (b : F64) (hb : b ≠ .nan) :
    F64.sub (.fin a) b ≠ .nan := by
  cases b <;> simp_all [F64.sub, F64.add, F64.neg, F64.round_ne_nan]

/-- A value other than not-a-number minus a finite value is not not-a-number. -/
theorem F64.sub_fin_right_ne_nan (a : F64) (b : ℚ) (ha : a ≠ .nan) :
    F64.sub a (.fin b) ≠ .nan := by
  cases a <;> simp_all [F64.sub, F64.add, F64.neg, F64.round_ne_nan]

/-- A finite value plus a value other than not-a-number is not not-a-number. -/
theorem F64.add_fin_left_ne_nan (a : ℚ) (b : F64) (hb : b ≠ .nan) :
    F64.add (.fin a) b ≠ .nan := by
  cases b <;> simp_all [F64.add, F64.round_ne_nan]

/-- A value other than not-a-number times a finite value other than zero is not
not-a-number. -/
theorem F64.mul_fin_right_ne_nan (a : F64) (s : ℚ) (ha : a ≠ .nan) (hs : s ≠ 0) :
    F64.mul a (.fin s) ≠ .nan := by
  cases a with
  | nan => exact absurd rfl ha
  | negInf => simp only [F64.mul, if_neg hs]; split_ifs <;> simp
  | posInf => simp only [F64.mul, if_neg hs]; split_ifs <;> simp
  | fin q => simp only [F64.mul]; exact F64.round_ne_nan _

/-- A finite value divided by 2 is not not-a-number. -/
theorem F64.div_fin_two_ne_nan (a : ℚ) : F64.div (.fin a) (.fin 2) ≠ .nan := by
  simp only [F64.div]
  rw [if_neg (by norm_num)]
  exact F64.round_ne_nan _

/-- The sum of two finite values. -/
theorem F64.add_fin (a b : ℚ) : F64.add (.fin a) (.fin b) = F64.round (a + b) := rfl

/-- The difference of two finite values. -/
theorem F64.sub_fin (a b : ℚ) : F64.sub (.fin a) (.fin b) = F64.round (a - b) := by
  rw [sub_eq_add_neg]; rfl

/-- The product of two finite values. -/
theorem F64.mul_fin (a b : ℚ) : F64.mul (.fin a) (.fin b) = F64.round (a * b) := rfl

/-- The quotient of a finite value by a finite value other than zero. -/
theorem F64.div_fin (a b : ℚ) (hb : b ≠ 0) :
    F64.div (.fin a) (.fin b) = F64.round (a / b) := by
  simp only [F64.div]
  rw [if_neg hb]

/-- The comparison `<` of two finite values. -/
theorem F64.lt_fin (a b : ℚ) : F64.lt (.fin a) (.fin b) = decide (a < b) := rfl

/-- The comparison `>` of two finite values. -/
theorem F64.gt_fin (a b : ℚ) : F64.gt (.fin a) (.fin b) = decide (b < a) := rfl

/-- The comparison `<=` of two finite values. -/
theorem F64.le_fin (a b : ℚ) : F64.le (.fin a) (.fin b) = decide (a ≤ b) := rfl

/-- The comparison `>=` of two finite values. -/
theorem F64.ge_fin (a b : ℚ) : F64.ge (.fin a) (.fin b) = decide (b ≤ a) := rfl

/-! ## Reading the first four bytes of a freshly opened file -/

/-- On a freshly opened file of at least four bytes, `io.ReadFull` returns the first four. -/
theorem ReadFull_four_ok (d : List Byte) (h : 4 ≤ d.length) :
    File.ReadFull { data := d, pos := 0, closed := false, readAtLog := [] } 4 =
      (.ok (d.take 4), { data := d, pos := 4, closed := false, readAtLog := [] }) := by
  have hlen : (List.take 4 (List.drop 0 d)).length = 4 := by simp; omega
  simp only [File.ReadFull, hlen]
  simp

/-- On a freshly opened file of fewer than four bytes, `io.ReadFull` fails: `EOF` on the empty
file, `ErrUnexpectedEOF` otherwise. -/
theorem ReadFull_four_short (d : List Byte) (h : d.length < 4) :
    File.ReadFull { data := d, pos := 0, closed := false, readAtLog := [] } 4 =
      (.error (if d.length = 0 then OsError.EOF else OsError.unexpectedEOF),
        { data := d, pos := d.length, closed := false, readAtLog := [] }) := by
  have hlen : (List.take 4 (List.drop 0 d)).length = d.length := by simp; omega
  have h4 : ¬ d.length = 4 := by omega
  simp only [File.ReadFull, hlen]
  by_cases h0 : d.length = 0 <;> simp [h0, h4]

/-! ## Archive reader -/

/-- C1 (the code departs from the claim): the archive file with the single entry
`levels/test.wwd` at offset 100, size 48 is opened without error, but the archive `OpenRez`
returns has an empty entry table: `List` returns no path instead of one, and `Extract` of the
stored path is a not-found error instead of the 48 stored bytes. -/
theorem OpenRez_testArchive_drops_entry :
    (testArchiveBytes.drop 100).take 48 = testWwdBytes ∧
    testWwdBytes.length = 48 ∧
    littleEndianUint32 ((testArchiveBytes.drop 8).take 4) = 148 ∧
    OpenRez (fun _ => some testArchiveBytes) "CLAW.REZ" =
      (some { file := { data := testArchiveBytes, pos := 12, closed := false, readAtLog := [] },
              entries := [] }, none) ∧
    RezArchive.List
      { file := { data := testArchiveBytes, pos := 12, closed := false, readAtLog := [] },
        entries := [] } = [] ∧
    (RezArchive.Extract
      { file := { data := testArchiveBytes, pos := 12, closed := false, readAtLog := [] },
        entries := [] } "levels/test.wwd").1 =
      (none, some (RezError.fileNotFound "levels/test.wwd")) :=
  ⟨rfl, rfl, rfl, rfl, rfl, rfl⟩

/-- C2: when the file at `path` exists and its first four bytes are not the archive signature
(in particular when it has fewer than four bytes), `OpenRez` returns no archive (`nil`) together
with an error: the header-read error for a file shorter than four bytes, the invalid-magic error
otherwise. -/
theorem OpenRez_wrong_magic (fs : FileSystem) (path : String) (data : List Byte)
    (hfile : fs path = some data) (hmagic : data.take 4 ≠ rezMagic) :
    OpenRez fs path =
      (none, some (if data.length < 4
        then RezError.readHeader (if data.length = 0 then OsError.EOF else OsError.unexpectedEOF)
        else RezError.invalidMagic path)) := by
  unfold OpenRez osOpen
  rw [hfile]
  by_cases h4 : data.length < 4
  · simp only [ReadFull_four_short data h4, if_pos h4]
  · simp only [ReadFull_four_ok data (by omega), if_neg h4, if_pos hmagic, ne_eq]

/-- C2 at concrete files: a level file offered as an archive, and a two-byte file. -/
theorem OpenRez_wrong_magic_witness :
    OpenRez (fun _ => some [87, 87, 68, 0, 1, 0, 0, 0]) "CLAW.REZ"
        = (none, some (RezError.invalidMagic "CLAW.REZ")) ∧
    OpenRez (fun _ => some [82, 69]) "CLAW.REZ"
        = (none, some (RezError.readHeader OsError.unexpectedEOF)) :=
  ⟨OpenRez_wrong_magic (fun _ => some [87, 87, 68, 0, 1, 0, 0, 0]) "CLAW.REZ" _ rfl (by decide),
   OpenRez_wrong_magic (fun _ => some [82, 69]) "CLAW.REZ" _ rfl (by decide)⟩

/-- C3: for every archive value and every path that is not a key of its entry table, `Extract`
returns no bytes and the not-found error, and leaves the archive exactly as it was: the log of
positioned reads on the backing file is unchanged (no `ReadAt` was made) and so is the entry
table. -/
theorem Extract_missing_path (r : RezArchive) (name : String) (hmiss : name ∉ r.List) :
    (r.Extract name).1 = (none, some (RezError.fileNotFound name)) ∧
    (r.Extract name).2.file.readAtLog = r.file.readAtLog ∧
    (r.Extract name).2.entries = r.entries ∧
    (r.Extract name).2 = r := by
  have hlook : r.entries.lookup name = none := by
    rw [List.lookup_eq_none_iff]
    intro p hp
    rw [bne_iff_ne]
    intro hname
    apply hmiss
    simp only [RezArchive.List, List.mem_map]
    exact ⟨p, hp, hname.symm⟩
  unfold RezArchive.Extract
  rw [hlook]
  exact ⟨rfl, rfl, rfl, rfl⟩

/-- C3 at an archive with the one entry `a`, asked for `b`. -/
theorem Extract_missing_path_witness :
    (RezArchive.Extract
      { file := { data := [1, 2, 3], pos := 0, closed := false, readAtLog := [] },
        entries := [("a", { Offset := 0, Size := 2 })] } "b").1 =
      (none, some (RezError.fileNotFound "b")) :=
  (Extract_missing_path
      { file := { data := [1, 2, 3], pos := 0, closed := false, readAtLog := [] },
        entries := [("a", { Offset := 0, Size := 2 })] } "b" (by decide)).1

/-- For comparison, `Extract` of a path that is a key does reach the positioned read: one
`ReadAt` of `Size` bytes at `Offset` is logged and its bytes are returned. -/
theorem Extract_present_path_reads :
    RezArchive.Extract
      { file := { data := [1, 2, 3], pos := 0, closed := false, readAtLog := [] },
        entries := [("a", { Offset := 1, Size := 2 })] } "a" =
      ((some [2, 3], none),
        { file := { data := [1, 2, 3], pos := 0, closed := false, readAtLog := [(1, 2)] },
          entries := [("a", { Offset := 1, Size := 2 })] }) := by
  decide

/-! ## Level decoder -/

/-- C4 (the code departs from the claim): `LoadWap` returns a level and no error both for the
input made of the four signature bytes only, and for the input whose header declares 3 planes
and which supplies 2: nothing after the version field is read, and the returned level has no
plane. -/
theorem LoadWap_truncated_accepted :
    LoadWap (fun _ => some magicOnlyWwd) "test.wwd" =
      (some { Header := WapHeader.zero, Planes := [], Objects := [] }, none) ∧
    littleEndianUint32 ((twoOfThreePlanesWwd.drop 20).take 4) = 3 ∧
    twoOfThreePlanesWwd.length = 24 + 2 * onePlaneBytes.length ∧
    LoadWap (fun _ => some twoOfThreePlanesWwd) "test.wwd" =
      (some { Header := { WapHeader.zero with Version := 1 }, Planes := [], Objects := [] },
        none) :=
  ⟨rfl, rfl, rfl, rfl⟩

/-- C5: whenever `LoadWap` returns an error the level it returns is `nil`; and when the file
exists and its first four bytes are not the level signature (in particular when it has fewer
than four bytes) `LoadWap` does return an error: the header-read error for a file shorter than
four bytes, the invalid-magic error otherwise. -/
theorem LoadWap_all_or_nothing (fs : FileSystem) (path : String) :
    ((LoadWap fs path).2 ≠ none → (LoadWap fs path).1 = none) ∧
    (∀ data : List Byte, fs path = some data → data.take 4 ≠ wapMagic →
      LoadWap fs path =
        (none, some (if data.length < 4
          then WapError.readHeader
            (if data.length = 0 then OsError.EOF else OsError.unexpectedEOF)
          else WapError.invalidMagic path))) := by
  constructor
  · unfold LoadWap osOpen
    cases hfile : fs path with
    | none => intro _; rfl
    | some data =>
      by_cases h4 : data.length < 4
      · simp only [ReadFull_four_short data h4]
        intro _; trivial
      · simp only [ReadFull_four_ok data (by omega)]
        by_cases hmagic : data.take 4 ≠ wapMagic
        · simp only [if_pos hmagic]
          intro _; trivial
        · simp only [if_neg hmagic]
          intro h; exact absurd rfl h
  · intro data hfile hmagic
    unfold LoadWap osOpen
    rw [hfile]
    by_cases h4 : data.length < 4
    · simp only [ReadFull_four_short data h4, if_pos h4]
    · simp only [ReadFull_four_ok data (by omega), if_neg h4, if_pos hmagic, ne_eq]

/-- C5 at concrete files: an archive offered as a level (error, no level), and a missing file
(error, no level). -/
theorem LoadWap_all_or_nothing_witness :
    LoadWap (fun _ => some [82, 69, 90, 0, 1, 0, 0, 0]) "test.wwd"
        = (none, some (WapError.invalidMagic "test.wwd")) ∧
    (LoadWap (fun _ => none) "test.wwd").1 = none :=
  ⟨(LoadWap_all_or_nothing (fun _ => some [82, 69, 90, 0, 1, 0, 0, 0]) "test.wwd").2
      _ rfl (by decide),
   (LoadWap_all_or_nothing (fun _ => none) "test.wwd").1 (by decide)⟩

/-- C10 (the code departs from the claim): `OpenRez` returns an archive and no error for the
file made of the four signature bytes only, for the file that stops after the version field,
and for the 12-byte file whose directory offset is 65535. -/
theorem OpenRez_truncated_header_accepted :
    OpenRez (fun _ => some [82, 69, 90, 0]) "CLAW.REZ" =
      (some { file := { data := [82, 69, 90, 0], pos := 4, closed := false, readAtLog := [] },
              entries := [] }, none) ∧
    OpenRez (fun _ => some [82, 69, 90, 0, 1, 0, 0, 0]) "CLAW.REZ" =
      (some { file := { data := [82, 69, 90, 0, 1, 0, 0, 0], pos := 8, closed := false,
                        readAtLog := [] },
              entries := [] }, none) ∧
    littleEndianUint32 [255, 255, 0, 0] = 65535 ∧
    OpenRez (fun _ => some [82, 69, 90, 0, 1, 0, 0, 0, 255, 255, 0, 0]) "CLAW.REZ" =
      (some { file := { data := [82, 69, 90, 0, 1, 0, 0, 0, 255, 255, 0, 0], pos := 12,
                        closed := false, readAtLog := [] },
              entries := [] }, none) :=
  ⟨rfl, rfl, rfl, rfl⟩

/-! ## Physics -/

/-- C6 (the code departs from the claim): with 32-pixel tiles and row 5 solid, a box of width
16 and height 32 whose bottom edge is at the top of row 4 (`y = 96`) and that falls with
`velY = 500` for `dt = 0.1` has its tentative bottom edge `178` inside row 5, yet
`ResolveCollisionY` returns `(146, false)` and not `(128, true)`; and the box resting on row 5
(`y = 128`) with `velY = 80`, `dt = 0.125` gets `(138, false)` and not `(128, true)`. -/
theorem ResolveCollisionY_passes_solid_row :
    row5Solid 0 5 = true ∧
    ((5 : ℚ) * 32 ≤ 96 + 500 * (1 / 10) + 32 ∧ (96 : ℚ) + 500 * (1 / 10) + 32 < 6 * 32) ∧
    ResolveCollisionY 0 96 16 32 500 (1 / 10) row5Solid 32 32 = (146, false) ∧
    ((5 : ℚ) * 32 ≤ 128 + 80 * (1 / 8) + 32 ∧ (128 : ℚ) + 80 * (1 / 8) + 32 < 6 * 32) ∧
    ResolveCollisionY 0 128 16 32 80 (1 / 8) row5Solid 32 32 = (138, false) := by
  refine ⟨rfl, ⟨by norm_num, by norm_num⟩, ?_, ⟨by norm_num, by norm_num⟩, ?_⟩
  · simp only [ResolveCollisionY, Prod.mk.injEq, and_true]; norm_num
  · simp only [ResolveCollisionY, Prod.mk.injEq, and_true]; norm_num

/-- C7 (the code departs from the claim): on the empty 10 by 10 level with 32-pixel tiles, whose
`IsSolid` reports column -1 and column 10 solid, a 16 by 16 box at `x = 0` moving left with
`velX = -64` for `dt = 0.5` is returned at `x = -32`, and the same box at the right border
(`x = 304`) moving right is returned at `x = 336`, with its right edge at `352 > 320`. -/
theorem ResolveCollisionX_leaves_grid :
    ∃ l : Level, NewLevel "test" 10 10 32 32 = some l ∧
      l.isSolidFunc (-1) 0 = true ∧ l.isSolidFunc 10 0 = true ∧
      ResolveCollisionX 0 0 16 16 (-64) (1 / 2) l.isSolidFunc 32 32 = -32 ∧
      ResolveCollisionX 304 0 16 16 64 (1 / 2) l.isSolidFunc 32 32 = 336 ∧
      (304 : ℚ) + 16 = 10 * 32 ∧ (336 : ℚ) + 16 > 10 * 32 := by
  refine ⟨_, rfl, rfl, rfl, ?_, ?_, by norm_num, by norm_num⟩
  · simp only [ResolveCollisionX]; norm_num
  · simp only [ResolveCollisionX]; norm_num

/-- Capping a value other than not-a-number at `m`: the result is the smaller of the two. -/
theorem cap_is_min (s : F64) (m : ℚ) (hs : s ≠ .nan) :
    ((if F64.gt s (.fin m) then .fin m else s) = s ∨
      (if F64.gt s (.fin m) then .fin m else s) = .fin m) ∧
    F64.le (if F64.gt s (.fin m) then .fin m else s) s = true ∧
    F64.le (if F64.gt s (.fin m) then .fin m else s) (.fin m) = true ∧
    (F64.le s (.fin m) = true → (if F64.gt s (.fin m) then .fin m else s) = s) := by
  have hm : F64.fin m ≠ .nan := by simp
  by_cases hgt : F64.gt s (.fin m) = true
  · rw [if_pos hgt]
    refine ⟨Or.inr rfl, (F64.lt_imp_le _ _ hgt).1, F64.le_self _ hm, fun hle => ?_⟩
    exfalso
    cases s with
    | nan => exact hs rfl
    | negInf => simp [F64.gt, F64.lt] at hgt
    | posInf => simp [F64.le] at hle
    | fin q =>
      rw [F64.gt_fin, decide_eq_true_eq] at hgt
      rw [F64.le_fin, decide_eq_true_eq] at hle
      linarith
  · rw [if_neg hgt]
    exact ⟨Or.inl rfl, F64.le_self _ hs,
      F64.not_lt_imp_le _ _ hm hs (by simpa [F64.gt] using hgt), fun _ => rfl⟩

/-- C8: for all finite `velY` and `dt`, with `Gravity = 800` and `MaxFallSpeed = 600`: the
`float64` sum `velY + Gravity * dt` is not not-a-number, and `ApplyGravity velY dt` is the
smaller of that sum and `MaxFallSpeed`: it is one of the two and at most both. So it never
exceeds `MaxFallSpeed`, and it is the sum itself whenever the sum is at most 600, upward
velocities included. -/
theorem ApplyGravity_eq_min (velY dt : ℚ) :
    Gravity = 800 ∧ MaxFallSpeed = 600 ∧
    F64.add (.fin velY) (F64.mul (.fin 800) (.fin dt)) ≠ .nan ∧
    (ApplyGravity (.fin velY) (.fin dt) = F64.add (.fin velY) (F64.mul (.fin 800) (.fin dt)) ∨
      ApplyGravity (.fin velY) (.fin dt) = .fin 600) ∧
    F64.le (ApplyGravity (.fin velY) (.fin dt))
      (F64.add (.fin velY) (F64.mul (.fin 800) (.fin dt))) = true ∧
    F64.le (ApplyGravity (.fin velY) (.fin dt)) (.fin 600) = true ∧
    (F64.le (F64.add (.fin velY) (F64.mul (.fin 800) (.fin dt))) (.fin 600) = true →
      ApplyGravity (.fin velY) (.fin dt) =
        F64.add (.fin velY) (F64.mul (.fin 800) (.fin dt))) := by
  have hs : F64.add (.fin velY) (F64.mul (.fin 800) (.fin dt)) ≠ .nan :=
    F64.add_fin_left_ne_nan _ _ (by rw [F64.mul_fin]; exact F64.round_ne_nan _)
  exact ⟨rfl, rfl, hs, cap_is_min _ 600 hs⟩

/-- C8 at an upward velocity, `velY = -1000` and `dt = 1/2`: the sum is `-600`, at most 600,
and `ApplyGravity` returns it unclamped. -/
theorem ApplyGravity_eq_min_witness :
    F64.add (.fin (-1000)) (F64.mul (.fin 800) (.fin (1 / 2))) = .fin (-600) ∧
    F64.le (F64.add (.fin (-1000)) (F64.mul (.fin 800) (.fin (1 / 2)))) (.fin 600) = true ∧
    ApplyGravity (.fin (-1000)) (.fin (1 / 2)) =
      F64.add (.fin (-1000)) (F64.mul (.fin 800) (.fin (1 / 2))) := by
  have r400 : F64.round 400 = .fin 400 := by
    simpa using F64.round_intCast 400 (by norm_num)
  have rm600 : F64.round (-600) = .fin (-600) := by
    simpa using F64.round_intCast (-600) (by norm_num)
  have hsum : F64.add (.fin (-1000)) (F64.mul (.fin 800) (.fin (1 / 2))) = .fin (-600) := by
    norm_num [F64.mul_fin, F64.add_fin, r400, rm600]
  have hle : F64.le (F64.add (.fin (-1000)) (F64.mul (.fin 800) (.fin (1 / 2))))
      (.fin 600) = true := by
    rw [hsum, F64.le_fin]
    exact decide_eq_true (by norm_num)
  exact ⟨hsum, hle, (ApplyGravity_eq_min (-1000) (1 / 2)).2.2.2.2.2.2 hle⟩

/-- The definition on two inputs where rounding shows: `ApplyGravity(2^-60, 0.5)` is `400`, the
`2^-60` being absorbed by the sum, and `ApplyGravity(0, 0.1)`, with `0.1` the `float64`
`3602879701896397 / 2^55`, is `80`, the product rounding down to `80`. -/
theorem ApplyGravity_rounding_examples :
    ApplyGravity (.fin (1 / 2 ^ 60)) (.fin (1 / 2)) = .fin 400 ∧
    F64.round (1 / 10) = .fin (3602879701896397 / 2 ^ 55) ∧
    ApplyGravity (.fin 0) (.fin (3602879701896397 / 2 ^ 55)) = .fin 80 := by
  have hmax : (2 : ℚ) ^ 53 ≤ maxFloat64 := by
    unfold maxFloat64
    norm_num
  have r400 : F64.round 400 = .fin 400 := by
    simpa using F64.round_intCast 400 (by norm_num)
  have r80 : F64.round 80 = .fin 80 := by
    simpa using F64.round_intCast 80 (by norm_num)
  have b1 : binary64Round (1 / 2 ^ 60 + 400) = 400 := by
    rw [binary64Round_eq (1 / 2 ^ 60 + 400) (8 : ℕ) (400 * 2 ^ 44) (by norm_num)
      (log_two_of_floor _ 400 8 (by norm_num) (by norm_num) (by norm_num) (by norm_num))
      (by norm_num) (roundHalfEven_of_lt _ _ (by norm_num) (by norm_num))]
    norm_num
  have b2 : binary64Round (800 * (3602879701896397 / 2 ^ 55)) = 80 := by
    rw [binary64Round_eq (800 * (3602879701896397 / 2 ^ 55)) (6 : ℕ) (80 * 2 ^ 46)
      (by norm_num)
      (log_two_of_floor _ 80 6 (by norm_num) (by norm_num) (by norm_num) (by norm_num))
      (by norm_num) (roundHalfEven_of_lt _ _ (by norm_num) (by norm_num))]
    norm_num
  have f1 : F64.round (1 / 2 ^ 60 + 400) = .fin 400 := by
    unfold F64.round
    rw [b1, if_neg (by linarith), if_neg (by linarith)]
  have f2 : F64.round (800 * (3602879701896397 / 2 ^ 55)) = .fin 80 := by
    unfold F64.round
    rw [b2, if_neg (by linarith), if_neg (by linarith)]
  have f3 : F64.round (1 / 10) = .fin (3602879701896397 / 2 ^ 55) := by
    unfold F64.round
    rw [binary64Round_examples.1, if_neg (by norm_num [maxFloat64]),
      if_neg (by norm_num [maxFloat64])]
  refine ⟨?_, f3, ?_⟩
  · unfold ApplyGravity Gravity MaxFallSpeed
    rw [F64.mul_fin, show ((800 : ℚ) * (1 / 2)) = 400 by norm_num, r400, F64.add_fin, f1]
    norm_num [F64.gt_fin]
  · unfold ApplyGravity Gravity MaxFallSpeed
    rw [F64.mul_fin, f2, F64.add_fin, show ((0 : ℚ) + 80) = 80 by norm_num, r80]
    norm_num [F64.gt_fin]

/-! ## Level grid -/

/-- On a level whose `Tiles` has `Height` rows of `Width` tiles each, `IsSolid` is `true` out of
the grid, and in the grid both index operations of `l.Tiles[ty][tx]` are in range and `IsSolid`
is the `Solid` flag of that tile. -/
theorem IsSolid_of_shape (l : Level) (hrows : l.Tiles.length = l.Height.toNat)
    (hcols : ∀ row ∈ l.Tiles, row.length = l.Width.toNat) (tx ty : Int) :
    ((tx < 0 ∨ ty < 0 ∨ tx ≥ l.Width ∨ ty ≥ l.Height) → l.IsSolid tx ty = some true) ∧
    ((0 ≤ tx ∧ 0 ≤ ty ∧ tx < l.Width ∧ ty < l.Height) →
      ∃ (row : List Tile) (t : Tile), l.Tiles[ty.toNat]? = some row ∧
        row[tx.toNat]? = some t ∧ l.IsSolid tx ty = some t.Solid) := by
  constructor
  · intro hout
    unfold Level.IsSolid
    rw [if_pos hout]
  · rintro ⟨h1, h2, h3, h4⟩
    have hty : ty.toNat < l.Tiles.length := by rw [hrows]; omega
    have hrow : l.Tiles[ty.toNat]? = some (l.Tiles[ty.toNat]) := List.getElem?_eq_getElem hty
    have htx : tx.toNat < (l.Tiles[ty.toNat]).length := by
      rw [hcols _ (List.getElem_mem hty)]; omega
    have htile : (l.Tiles[ty.toNat])[tx.toNat]? = some ((l.Tiles[ty.toNat])[tx.toNat]) :=
      List.getElem?_eq_getElem htx
    refine ⟨_, _, hrow, htile, ?_⟩
    unfold Level.IsSolid
    rw [if_neg (by simp only [ge_iff_le]; omega)]
    simp only [hrow, htile]

/-- C9: for `w, h ≥ 0`, `NewLevel name w h tw th` returns a level `l` of `h` rows of `w` tiles
on which `IsSolid` is `false` everywhere in the grid and `true` out of it; and whatever tiles
are stored in a grid of that shape, for all integers `tx`, `ty`: out of the grid (`tx < 0`,
`ty < 0`, `tx ≥ w` or `ty ≥ h`) `IsSolid` is `true`, and in the grid both index operations of
`Tiles[ty][tx]` are in range and `IsSolid` is the `Solid` flag of that tile. -/
theorem NewLevel_IsSolid (name : String) (w h tw th : Int) (hw : 0 ≤ w) (hh : 0 ≤ h) :
    ∃ l : Level, NewLevel name w h tw th = some l ∧
      (l.Tiles.length = h.toNat ∧ ∀ row ∈ l.Tiles, row.length = w.toNat) ∧
      (∀ tx ty : Int, (0 ≤ tx ∧ 0 ≤ ty ∧ tx < w ∧ ty < h) → l.IsSolid tx ty = some false) ∧
      (∀ tx ty : Int, (tx < 0 ∨ ty < 0 ∨ tx ≥ w ∨ ty ≥ h) → l.IsSolid tx ty = some true) ∧
      ∀ tiles : List (List Tile), tiles.length = h.toNat →
        (∀ row ∈ tiles, row.length = w.toNat) → ∀ tx ty : Int,
          ((tx < 0 ∨ ty < 0 ∨ tx ≥ w ∨ ty ≥ h) →
            Level.IsSolid { l with Tiles := tiles } tx ty = some true) ∧
          ((0 ≤ tx ∧ 0 ≤ ty ∧ tx < w ∧ ty < h) →
            ∃ (row : List Tile) (t : Tile), tiles[ty.toNat]? = some row ∧
              row[tx.toNat]? = some t ∧
              Level.IsSolid { l with Tiles := tiles } tx ty = some t.Solid) := by
  have hshape : (List.replicate h.toNat (List.replicate w.toNat Tile.zero)).length = h.toNat ∧
      ∀ row ∈ List.replicate h.toNat (List.replicate w.toNat Tile.zero),
        row.length = w.toNat := by
    refine ⟨List.length_replicate _ _, fun row hrow => ?_⟩
    rw [(List.mem_replicate.mp hrow).2, List.length_replicate]
  refine ⟨{ Name := name, Width := w, Height := h, TileWidth := tw, TileHeight := th,
             Tiles := List.replicate h.toNat (List.replicate w.toNat Tile.zero),
             Objects := [], StartX := 0, StartY := 0 }, ?_, hshape, ?_, ?_, ?_⟩
  · unfold NewLevel
    rw [if_neg (by omega), if_neg (by omega)]
  · intro tx ty hin
    obtain ⟨row, t, hrow, ht, hsolid⟩ :=
      (IsSolid_of_shape
        ⟨name, w, h, tw, th, List.replicate h.toNat (List.replicate w.toNat Tile.zero), [], 0, 0⟩
        hshape.1 hshape.2 tx ty).2 hin
    have hrow2 : row = List.replicate w.toNat Tile.zero :=
      (List.mem_replicate.mp (List.getElem?_mem hrow)).2
    have ht2 : t = Tile.zero := by
      rw [hrow2] at ht
      exact (List.mem_replicate.mp (List.getElem?_mem ht)).2
    rw [hsolid, ht2]
    rfl
  · intro tx ty hout
    exact (IsSolid_of_shape
      ⟨name, w, h, tw, th, List.replicate h.toNat (List.replicate w.toNat Tile.zero), [], 0, 0⟩
      hshape.1 hshape.2 tx ty).1 hout
  · intro tiles hrows hcols tx ty
    exact IsSolid_of_shape ⟨name, w, h, tw, th, tiles, [], 0, 0⟩ hrows hcols tx ty

/-- C9 on the 3 by 2 level: freshly built, tile `(2, 1)` is not solid and column 3 is solid;
once `Tiles[1][2].Solid` is set, `IsSolid 2 1` is `true` while `IsSolid 1 1` stays `false`. -/
theorem NewLevel_IsSolid_witness :
    ∃ l : Level, NewLevel "test" 3 2 32 32 = some l ∧
      l.IsSolid 2 1 = some false ∧ l.IsSolid 3 1 = some true ∧
      Level.IsSolid { l with Tiles :=
        [[Tile.zero, Tile.zero, Tile.zero],
         [Tile.zero, Tile.zero, { Tile.zero with Solid := true }]] } 2 1 = some true ∧
      Level.IsSolid { l with Tiles :=
        [[Tile.zero, Tile.zero, Tile.zero],
         [Tile.zero, Tile.zero, { Tile.zero with Solid := true }]] } 1 1 = some false := by
  obtain ⟨l, hl, _, hin, hout, hall⟩ :=
    NewLevel_IsSolid "test" 3 2 32 32 (by decide) (by decide)
  refine ⟨l, hl, hin 2 1 (by decide), hout 3 1 (by decide), ?_, ?_⟩
  · obtain ⟨row, t, hrow, ht, hs⟩ :=
      (hall [[Tile.zero, Tile.zero, Tile.zero],
        [Tile.zero, Tile.zero, { Tile.zero with Solid := true }]] rfl
        (by intro row hrow; simp at hrow; rcases hrow with h | h <;> rw [h] <;> rfl) 2 1).2
        (by decide)
    have hrow2 : row = [Tile.zero, Tile.zero, { Tile.zero with Solid := true }] := by
      simpa using hrow.symm
    rw [hrow2] at ht
    have ht2 : t = { Tile.zero with Solid := true } := by simpa using ht.symm
    rw [hs, ht2]
  · obtain ⟨row, t, hrow, ht, hs⟩ :=
      (hall [[Tile.zero, Tile.zero, Tile.zero],
        [Tile.zero, Tile.zero, { Tile.zero with Solid := true }]] rfl
        (by intro row hrow; simp at hrow; rcases hrow with h | h <;> rw [h] <;> rfl) 1 1).2
        (by decide)
    have hrow2 : row = [Tile.zero, Tile.zero, { Tile.zero with Solid := true }] := by
      simpa using hrow.symm
    rw [hrow2] at ht
    have ht2 : t = Tile.zero := by simpa using ht.symm
    rw [hs, ht2]
    rfl

/-! ## Decoded levels -/

/-- A level that `LoadWap` returns without error has no plane and the plane count 0. -/
theorem LoadWap_ok_shape (fs : FileSystem) (path : String) (lvl : WapLevel)
    (hok : LoadWap fs path = (some lvl, none)) :
    lvl.Planes = [] ∧ lvl.Header.PlaneCount = 0 := by
  unfold LoadWap osOpen at hok
  cases hfile : fs path with
  | none => rw [hfile] at hok; simp at hok
  | some data =>
    rw [hfile] at hok
    by_cases h4 : data.length < 4
    · simp [ReadFull_four_short data h4] at hok
    · simp only [ReadFull_four_ok data (by omega)] at hok
      by_cases hmagic : data.take 4 ≠ wapMagic
      · simp [hmagic] at hok
      · rw [if_neg hmagic] at hok
        have hl := (Option.some.inj (congrArg Prod.fst hok)).symm
        subst hl
        refine ⟨rfl, ?_⟩
        cases (File.binaryReadUint32
          { data := data, pos := 4, closed := false, readAtLog := [] }).1 <;> rfl

/-- Clamping below at 0 and then, when the bound `m` is positive, above at `m`: not-a-number
stays not-a-number, and any other value ends at least 0 and, when `m > 0`, at most `m`. -/
theorem clamp_bounds (x m : F64) :
    (x = .nan →
      (if (F64.gt m (.fin 0) && F64.gt (if F64.lt x (.fin 0) then .fin 0 else x) m) = true
        then m else (if F64.lt x (.fin 0) then .fin 0 else x)) = .nan) ∧
    (x ≠ .nan →
      (if (F64.gt m (.fin 0) && F64.gt (if F64.lt x (.fin 0) then .fin 0 else x) m) = true
        then m else (if F64.lt x (.fin 0) then .fin 0 else x)) ≠ .nan ∧
      F64.le (.fin 0)
        (if (F64.gt m (.fin 0) && F64.gt (if F64.lt x (.fin 0) then .fin 0 else x) m) = true
          then m else (if F64.lt x (.fin 0) then .fin 0 else x)) = true ∧
      (F64.gt m (.fin 0) = true →
        F64.le
          (if (F64.gt m (.fin 0) && F64.gt (if F64.lt x (.fin 0) then .fin 0 else x) m) = true
            then m else (if F64.lt x (.fin 0) then .fin 0 else x)) m = true)) := by
  constructor
  · intro hx
    subst hx
    cases m <;> simp [F64.gt, F64.lt]
  · intro hx
    have h3 : (if F64.lt x (.fin 0) then F64.fin 0 else x) ≠ .nan ∧
        F64.le (.fin 0) (if F64.lt x (.fin 0) then F64.fin 0 else x) = true := by
      by_cases hlt : F64.lt x (.fin 0) = true
      · rw [if_pos hlt]
        exact ⟨by simp, by simp [F64.le]⟩
      · rw [if_neg hlt]
        exact ⟨hx, F64.not_lt_imp_le x (.fin 0) hx (by simp) (by simpa using hlt)⟩
    generalize (if F64.lt x (.fin 0) then F64.fin 0 else x) = y at h3 ⊢
    by_cases hc : (F64.gt m (.fin 0) && F64.gt y m) = true
    · rw [if_pos hc]
      have hm : F64.gt m (.fin 0) = true := (Bool.and_eq_true_iff.mp hc).1
      obtain ⟨hle, _, hmn⟩ := F64.lt_imp_le (.fin 0) m hm
      exact ⟨hmn, hle, fun _ => F64.le_self m hmn⟩
    · rw [if_neg hc]
      refine ⟨h3.1, h3.2, fun hm => ?_⟩
      have hmn := (F64.lt_imp_le (.fin 0) m hm).2.2
      have hgt : F64.gt y m = false := by
        rw [Bool.and_eq_true_iff, not_and] at hc
        simpa using hc hm
      exact F64.not_lt_imp_le m y hmn h3.1 hgt

/-- The `X` coordinate after `Follow`: the interpolated position, clamped below at 0 and then,
when `levelW - Width > 0`, above at `levelW - Width`. -/
theorem Follow_X (c : Camera) (targetX targetY levelW levelH : F64) :
    (c.Follow targetX targetY levelW levelH).X =
      if (F64.gt (F64.sub levelW c.Width) (.fin 0) &&
          F64.gt (if F64.lt (F64.add c.X (F64.mul
                (F64.sub (F64.sub targetX (F64.div c.Width (.fin 2))) c.X) c.Smoothing))
              (.fin 0) then .fin 0
            else F64.add c.X (F64.mul
                (F64.sub (F64.sub targetX (F64.div c.Width (.fin 2))) c.X) c.Smoothing))
            (F64.sub levelW c.Width)) = true
      then F64.sub levelW c.Width
      else (if F64.lt (F64.add c.X (F64.mul
                (F64.sub (F64.sub targetX (F64.div c.Width (.fin 2))) c.X) c.Smoothing))
              (.fin 0) then .fin 0
            else F64.add c.X (F64.mul
                (F64.sub (F64.sub targetX (F64.div c.Width (.fin 2))) c.X) c.Smoothing)) := by
  simp only [Camera.Follow]
  split_ifs <;> simp_all

/-- The `Y` coordinate after `Follow`, as `Follow_X`. -/
theorem Follow_Y (c : Camera) (targetX targetY levelW levelH : F64) :
    (c.Follow targetX targetY levelW levelH).Y =
      if (F64.gt (F64.sub levelH c.Height) (.fin 0) &&
          F64.gt (if F64.lt (F64.add c.Y (F64.mul
                (F64.sub (F64.sub targetY (F64.div c.Height (.fin 2))) c.Y) c.Smoothing))
              (.fin 0) then .fin 0
            else F64.add c.Y (F64.mul
                (F64.sub (F64.sub targetY (F64.div c.Height (.fin 2))) c.Y) c.Smoothing))
            (F64.sub levelH c.Height)) = true
      then F64.sub levelH c.Height
      else (if F64.lt (F64.add c.Y (F64.mul
                (F64.sub (F64.sub targetY (F64.div c.Height (.fin 2))) c.Y) c.Smoothing))
              (.fin 0) then .fin 0
            else F64.add c.Y (F64.mul
                (F64.sub (F64.sub targetY (F64.div c.Height (.fin 2))) c.Y) c.Smoothing)) := by
  simp only [Camera.Follow]
  split_ifs <;> simp_all

/-- The viewport size is not changed by `Follow`. -/
theorem Follow_size (c : Camera) (targetX targetY levelW levelH : F64) :
    (c.Follow targetX targetY levelW levelH).Width = c.Width ∧
    (c.Follow targetX targetY levelW levelH).Height = c.Height := by
  simp only [Camera.Follow]
  constructor <;> split_ifs <;> rfl

/-- On finite operands with a smoothing factor other than zero, the interpolated coordinate
is not not-a-number. -/
theorem interpolate_ne_nan (x w s t : ℚ) (hs : s ≠ 0) :
    F64.add (.fin x) (F64.mul
      (F64.sub (F64.sub (.fin t) (F64.div (.fin w) (.fin 2))) (.fin x)) (.fin s)) ≠ .nan :=
  F64.add_fin_left_ne_nan _ _
    (F64.mul_fin_right_ne_nan _ _
      (F64.sub_fin_right_ne_nan _ _
        (F64.sub_fin_left_ne_nan _ _ (F64.div_fin_two_ne_nan w))) hs)

/-- C12 (fails as stated): three camera states after `Follow`. On a level 100 wide seen through
a viewport 800 wide the camera is left at `X = 0`, not at most `levelW - Width = -700`. On a
level exactly as wide as the viewport (`levelW - Width = 0`) and a target at `x = 5000` the
camera is left at `X = 2300`, not at most 0: the upper clamp is guarded by `maxX > 0`. With
`Width = 2 ^ 1023`, `Smoothing = 0` and the target at `-(2 ^ 1023 + 2 ^ 1022)`, all finite, the
desired position overflows, `X` becomes not-a-number, and `X >= 0` is false. -/
theorem Follow_not_clamped :
    ((Camera.Follow ⟨.fin 0, .fin 0, .fin 800, .fin 600, .fin (1 / 2)⟩
        (.fin 0) (.fin 0) (.fin 100) (.fin 600)).X = .fin 0 ∧
      F64.sub (.fin 100) (.fin 800) = .fin (-700) ∧
      F64.le (.fin 0) (.fin (-700)) = false) ∧
    ((Camera.Follow ⟨.fin 0, .fin 0, .fin 800, .fin 600, .fin (1 / 2)⟩
        (.fin 5000) (.fin 0) (.fin 800) (.fin 600)).X = .fin 2300 ∧
      F64.sub (.fin 800) (.fin 800) = .fin 0 ∧
      F64.le (.fin 2300) (.fin 0) = false) ∧
    ((Camera.Follow ⟨.fin 0, .fin 0, .fin (2 ^ 1023), .fin 600, .fin 0⟩
        (.fin (-(2 ^ 1023 + 2 ^ 1022))) (.fin 0) (.fin (2 ^ 1023 + 2 ^ 1022)) (.fin 600)).X
        = .nan ∧
      F64.ge .nan (.fin 0) = false) := by
  have r0 : F64.round 0 = .fin 0 := by simpa using F64.round_intCast 0 (by norm_num)
  have r400 : F64.round 400 = .fin 400 := by
    simpa using F64.round_intCast 400 (by norm_num)
  have rm400 : F64.round (-400) = .fin (-400) := by
    simpa using F64.round_intCast (-400) (by norm_num)
  have rm200 : F64.round (-200) = .fin (-200) := by
    simpa using F64.round_intCast (-200) (by norm_num)
  have rm700 : F64.round (-700) = .fin (-700) := by
    simpa using F64.round_intCast (-700) (by norm_num)
  have r4600 : F64.round 4600 = .fin 4600 := by
    simpa using F64.round_intCast 4600 (by norm_num)
  have r2300 : F64.round 2300 = .fin 2300 := by
    simpa using F64.round_intCast 2300 (by norm_num)
  refine ⟨⟨?_, ?_, ?_⟩, ⟨?_, ?_, ?_⟩, ⟨?_, ?_⟩⟩
  · rw [Follow_X]
    norm_num [F64.div_fin, F64.sub_fin, F64.add_fin, F64.mul_fin, F64.lt_fin, F64.gt_fin,
      r0, r400, rm400, rm200, rm700]
  · norm_num [F64.sub_fin, rm700]
  · norm_num [F64.le_fin]
  · rw [Follow_X]
    norm_num [F64.div_fin, F64.sub_fin, F64.add_fin, F64.mul_fin, F64.lt_fin, F64.gt_fin,
      r0, r400, r4600, r2300]
  · norm_num [F64.sub_fin, r0]
  · norm_num [F64.le_fin]
  · have hdiv : F64.div (.fin (2 ^ 1023)) (.fin 2) = .fin (2 ^ 1022) := by
      rw [F64.div_fin _ _ (by norm_num), show ((2 : ℚ) ^ 1023 / 2) = 2 ^ 1022 by norm_num]
      exact F64.round_examples.1
    have hdes : F64.sub (.fin (-(2 ^ 1023 + 2 ^ 1022))) (.fin (2 ^ 1022)) = .negInf := by
      rw [F64.sub_fin,
        show (-((2 : ℚ) ^ 1023 + 2 ^ 1022) - 2 ^ 1022) = -2 ^ 1024 by norm_num]
      exact F64.round_examples.2
    have hnan : F64.add (.fin 0) (F64.mul (F64.sub (F64.sub (.fin (-(2 ^ 1023 + 2 ^ 1022)))
        (F64.div (.fin (2 ^ 1023)) (.fin 2))) (.fin 0)) (.fin 0)) = .nan := by
      rw [hdiv, hdes]
      rfl
    rw [Follow_X]
    exact (clamp_bounds _ _).1 hnan
  · rfl

/-- C12 (amended): after `Follow`, each coordinate is not-a-number or at least 0; `Width` and
`Height` are unchanged; whenever the `float64` difference `levelW - Width` is greater than 0,
`X` is not-a-number or at most that difference, and likewise `Y` with `levelH - Height`; and
when the coordinate, the viewport size, the target and the smoothing factor are finite and the
smoothing factor is not 0, the coordinate is not not-a-number. -/
theorem Follow_clamped (c : Camera) (targetX targetY levelW levelH : F64) :
    ((c.Follow targetX targetY levelW levelH).X = .nan ∨
      F64.ge (c.Follow targetX targetY levelW levelH).X (.fin 0) = true) ∧
    ((c.Follow targetX targetY levelW levelH).Y = .nan ∨
      F64.ge (c.Follow targetX targetY levelW levelH).Y (.fin 0) = true) ∧
    (c.Follow targetX targetY levelW levelH).Width = c.Width ∧
    (c.Follow targetX targetY levelW levelH).Height = c.Height ∧
    (F64.gt (F64.sub levelW c.Width) (.fin 0) = true →
      (c.Follow targetX targetY levelW levelH).X = .nan ∨
      F64.le (c.Follow targetX targetY levelW levelH).X (F64.sub levelW c.Width) = true) ∧
    (F64.gt (F64.sub levelH c.Height) (.fin 0) = true →
      (c.Follow targetX targetY levelW levelH).Y = .nan ∨
      F64.le (c.Follow targetX targetY levelW levelH).Y (F64.sub levelH c.Height) = true) ∧
    (∀ x w s t : ℚ, c.X = .fin x → c.Width = .fin w → c.Smoothing = .fin s → s ≠ 0 →
      targetX = .fin t → (c.Follow targetX targetY levelW levelH).X ≠ .nan) ∧
    (∀ y h s t : ℚ, c.Y = .fin y → c.Height = .fin h → c.Smoothing = .fin s → s ≠ 0 →
      targetY = .fin t → (c.Follow targetX targetY levelW levelH).Y ≠ .nan) := by
  have hX := clamp_bounds
    (F64.add c.X (F64.mul (F64.sub (F64.sub targetX (F64.div c.Width (.fin 2))) c.X)
      c.Smoothing)) (F64.sub levelW c.Width)
  have hY := clamp_bounds
    (F64.add c.Y (F64.mul (F64.sub (F64.sub targetY (F64.div c.Height (.fin 2))) c.Y)
      c.Smoothing)) (F64.sub levelH c.Height)
  rw [← Follow_X c targetX targetY levelW levelH] at hX
  rw [← Follow_Y c targetX targetY levelW levelH] at hY
  refine ⟨?_, ?_, (Follow_size c targetX targetY levelW levelH).1,
    (Follow_size c targetX targetY levelW levelH).2, ?_, ?_, ?_, ?_⟩
  · by_cases hn : F64.add c.X (F64.mul
        (F64.sub (F64.sub targetX (F64.div c.Width (.fin 2))) c.X) c.Smoothing) = .nan
    · exact Or.inl (hX.1 hn)
    · exact Or.inr (hX.2 hn).2.1
  · by_cases hn : F64.add c.Y (F64.mul
        (F64.sub (F64.sub targetY (F64.div c.Height (.fin 2))) c.Y) c.Smoothing) = .nan
    · exact Or.inl (hY.1 hn)
    · exact Or.inr (hY.2 hn).2.1
  · intro hm
    by_cases hn : F64.add c.X (F64.mul
        (F64.sub (F64.sub targetX (F64.div c.Width (.fin 2))) c.X) c.Smoothing) = .nan
    · exact Or.inl (hX.1 hn)
    · exact Or.inr ((hX.2 hn).2.2 hm)
  · intro hm
    by_cases hn : F64.add c.Y (F64.mul
        (F64.sub (F64.sub targetY (F64.div c.Height (.fin 2))) c.Y) c.Smoothing) = .nan
    · exact Or.inl (hY.1 hn)
    · exact Or.inr ((hY.2 hn).2.2 hm)
  · intro x w s t hx hw hs hs0 ht
    refine (hX.2 ?_).1
    rw [hx, hw, hs, ht]
    exact interpolate_ne_nan x w s t hs0
  · intro y h s t hy hh hs hs0 ht
    refine (hY.2 ?_).1
    rw [hy, hh, hs, ht]
    exact interpolate_ne_nan y h s t hs0

/-- C12 (amended) at a viewport 800 wide on a level 2000 wide, following a target at
`x = 5000` with smoothing `1/2`: the bound `levelW - Width = 1200` is positive, and the camera
ends at a finite `X` that is at most the bound. -/
theorem Follow_clamped_witness :
    F64.gt (F64.sub (.fin 2000) (.fin 800)) (.fin 0) = true ∧
    (Camera.Follow ⟨.fin 0, .fin 0, .fin 800, .fin 600, .fin (1 / 2)⟩
        (.fin 5000) (.fin 0) (.fin 2000) (.fin 600)).X ≠ .nan ∧
    ((Camera.Follow ⟨.fin 0, .fin 0, .fin 800, .fin 600, .fin (1 / 2)⟩
        (.fin 5000) (.fin 0) (.fin 2000) (.fin 600)).X = .nan ∨
      F64.le (Camera.Follow ⟨.fin 0, .fin 0, .fin 800, .fin 600, .fin (1 / 2)⟩
        (.fin 5000) (.fin 0) (.fin 2000) (.fin 600)).X
        (F64.sub (.fin 2000) (.fin 800)) = true) := by
  have r1200 : F64.round 1200 = .fin 1200 := by
    simpa using F64.round_intCast 1200 (by norm_num)
  have hgt : F64.gt (F64.sub (.fin 2000) (.fin 800)) (.fin 0) = true := by
    norm_num [F64.sub_fin, F64.gt_fin, r1200]
  exact ⟨hgt,
    (Follow_clamped ⟨.fin 0, .fin 0, .fin 800, .fin 600, .fin (1 / 2)⟩
      (.fin 5000) (.fin 0) (.fin 2000) (.fin 600)).2.2.2.2.2.2.1 0 800 (1 / 2) 5000
      rfl rfl rfl (by norm_num) rfl,
    (Follow_clamped ⟨.fin 0, .fin 0, .fin 800, .fin 600, .fin (1 / 2)⟩
      (.fin 5000) (.fin 0) (.fin 2000) (.fin 600)).2.2.2.2.1 hgt⟩

/-! ## World coordinates -/

/-- C13 (the code departs from the claim): on the empty 10 by 10 level with 32-pixel tiles the
world points `(-1, 0)` and `(-1/2, 0)` lie left of the grid rectangle, `WorldToTile` sends both
to the tile `(0, 0)` (`int(-1) / 32 = 0`, the quotient truncating toward zero), and `IsSolid`
of that tile is `false`. -/
theorem WorldToTile_negative_not_solid :
    ∃ l : Level, NewLevel "test" 10 10 32 32 = some l ∧
      floatToInt (-1) = -1 ∧ Int.tdiv (-1) 32 = 0 ∧
      l.WorldToTile (-1) 0 = some (0, 0) ∧
      l.WorldToTile (-1 / 2) 0 = some (0, 0) ∧
      l.IsSolid 0 0 = some false ∧
      l.IsSolid (-1) 0 = some true := by
  have h1 : floatToInt (-1) = -1 := by
    unfold floatToInt
    rw [if_neg (by norm_num)]
    exact Int.ceil_eq_iff.mpr ⟨by norm_num, by norm_num⟩
  have h2 : floatToInt (-1 / 2) = 0 := by
    unfold floatToInt
    rw [if_neg (by norm_num)]
    exact Int.ceil_eq_iff.mpr ⟨by norm_num, by norm_num⟩
  have h0 : floatToInt 0 = 0 := by
    unfold floatToInt
    rw [if_pos (le_refl 0)]
    exact Int.floor_zero
  refine ⟨_, rfl, h1, rfl, ?_, ?_, rfl, rfl⟩
  · simp only [Level.WorldToTile, h1, h0]
    rfl
  · simp only [Level.WorldToTile, h2, h0]
    rfl

/-! ## Collectibles -/

/-- `Apply` on a collected item changes nothing. -/
theorem Apply_of_collected (c : Collectible) (p : Player) (hc : c.Collected = true) :
    c.Apply p = (c, p) := by
  unfold Collectible.Apply
  rw [if_pos hc]

/-- After `Apply` the item is collected. -/
theorem Apply_collected (c : Collectible) (p : Player) : (c.Apply p).1.Collected = true := by
  unfold Collectible.Apply
  by_cases hc : c.Collected = true
  · rw [if_pos hc]; exact hc
  · rw [if_neg hc]
    split_ifs <;> rfl

/-- After `Apply` the health is at most 100 if it was before. -/
theorem Apply_health_le (c : Collectible) (p : Player) (hp : p.Health ≤ 100) :
    (c.Apply p).2.Health ≤ 100 := by
  unfold Collectible.Apply
  by_cases hc : c.Collected = true
  · rw [if_pos hc]; exact hp
  · rw [if_neg hc]
    by_cases ht : c.Type_ = CollectTreasureGold ∨ c.Type_ = CollectTreasureSilver ∨
        c.Type_ = CollectTreasureBronze ∨ c.Type_ = CollectTreasureCrown ∨
        c.Type_ = CollectTreasureRing ∨ c.Type_ = CollectTreasureChalice ∨
        c.Type_ = CollectTreasureCross ∨ c.Type_ = CollectTreasureScepter ∨
        c.Type_ = CollectTreasureGecko
    · rw [if_pos ht]; exact hp
    · rw [if_neg ht]
      by_cases hh : c.Type_ = CollectHealth
      · rw [if_pos hh]
        by_cases hgt : wrapInt64 (p.Health + c.Value) > 100
        · simp only [if_pos hgt]; exact le_refl 100
        · simp only [if_neg hgt]; exact not_lt.mp hgt
      · rw [if_neg hh]
        split_ifs <;> exact hp

/-- C14: for every collectible and player, `Apply` on an uncollected item sets `Collected`;
`Apply` on a collected item changes neither the item nor the player; applying twice is the same
as applying once; and a `Health` of at most 100 before `Apply` is at most 100 after it,
whatever the type and the `Value` (64-bit wrap-around of `Health + Value` included). -/
theorem Apply_at_most_once (c : Collectible) (p : Player) :
    (c.Collected = false → (c.Apply p).1.Collected = true) ∧
    (c.Collected = true → c.Apply p = (c, p)) ∧
    (c.Apply p).1.Apply (c.Apply p).2 = c.Apply p ∧
    (p.Health ≤ 100 → (c.Apply p).2.Health ≤ 100) :=
  ⟨fun _ => Apply_collected c p, Apply_of_collected c p,
   Apply_of_collected _ _ (Apply_collected c p), Apply_health_le c p⟩

/-- C14 at a health potion of value 50 picked up by a fresh player (health 100): the item
becomes collected and the health stays at most 100. -/
theorem Apply_at_most_once_witness :
    (NewCollectible CollectHealth 0 0 50).Collected = false ∧
    (NewPlayer 0 0).Health ≤ 100 ∧
    ((NewCollectible CollectHealth 0 0 50).Apply (NewPlayer 0 0)).1.Collected = true ∧
    ((NewCollectible CollectHealth 0 0 50).Apply (NewPlayer 0 0)).2.Health ≤ 100 :=
  ⟨rfl, by decide,
   (Apply_at_most_once (NewCollectible CollectHealth 0 0 50) (NewPlayer 0 0)).1 rfl,
   (Apply_at_most_once (NewCollectible CollectHealth 0 0 50) (NewPlayer 0 0)).2.2.2
     (by decide)⟩

/-- The health potion of value 50 on a player of health 80 gives health 100; a second `Apply`
changes nothing; a treasure adds its value to the score. -/
theorem Apply_examples :
    ((NewCollectible CollectHealth 0 0 50).Apply
        { NewPlayer 0 0 with Health := 80 }).2.Health = 100 ∧
    ((NewCollectible CollectHealth 0 0 10).Apply
        { NewPlayer 0 0 with Health := 80 }).2.Health = 90 ∧
    ((NewCollectible CollectTreasureRing 0 0 500).Apply (NewPlayer 0 0)).2.Score = 500 := by
  refine ⟨?_, ?_, ?_⟩ <;> decide

/-! ## Bounding boxes -/

/-- C15 (fails as stated): in binary64 arithmetic the box with `X = 2 ^ 54`, `Y = 0`,
`Width = 1`, `Height = 1`, whose four fields are binary64 values and whose sizes are positive,
does not overlap itself: `X + Width` rounds to `X`. -/
theorem Overlaps_self_absorbed :
    binary64Round (2 ^ 54) = 2 ^ 54 ∧ binary64Round 1 = 1 ∧
    binary64Round (2 ^ 54 + 1) = 2 ^ 54 ∧
    AABB.Overlaps binary64Round { X := 2 ^ 54, Y := 0, Width := 1, Height := 1 }
      { X := 2 ^ 54, Y := 0, Width := 1, Height := 1 } = false := by
  have hbig : binary64Round (2 ^ 54) = 2 ^ 54 := by
    have h := binary64Round_natCast (2 ^ 54) 54 (2 ^ 52) (le_refl _) (by norm_num)
      (roundHalfEven_of_lt _ _ (by norm_num) (by norm_num))
    have hcast : ((2 ^ 54 : ℕ) : ℚ) = 2 ^ 54 := by norm_num
    rw [hcast] at h
    rw [h]; norm_num
  have hone : binary64Round 1 = 1 := by
    have h := binary64Round_natCast 1 0 (2 ^ 52) (le_refl _) (by norm_num)
      (roundHalfEven_of_lt _ _ (by norm_num) (by norm_num))
    have hcast : ((1 : ℕ) : ℚ) = 1 := by norm_num
    rw [hcast] at h
    rw [h]; norm_num
  have hsum : binary64Round (2 ^ 54 + 1) = 2 ^ 54 := by
    have h := binary64Round_natCast (2 ^ 54 + 1) 54 (2 ^ 52) (by norm_num) (by norm_num)
      (roundHalfEven_of_lt _ _ (by norm_num) (by norm_num))
    have hcast : ((2 ^ 54 + 1 : ℕ) : ℚ) = 2 ^ 54 + 1 := by norm_num
    rw [hcast] at h
    rw [h]; norm_num
  refine ⟨hbig, hone, hsum, ?_⟩
  simp only [AABB.Overlaps, hsum]
  simp

/-- C15 (amended): for every rounding `fl` of the additions, `Overlaps` is symmetric; two boxes
that touch along an edge (the computed `a.X + a.Width` equals `b.X`) do not overlap; a box
overlaps itself when the computed `X + Width` and `Y + Height` are greater than `X` and `Y`;
and with exact additions every box with positive `Width` and `Height` overlaps itself. -/
theorem Overlaps_symm_strict (fl : ℚ → ℚ) (a b : AABB) :
    AABB.Overlaps fl a b = AABB.Overlaps fl b a ∧
    (fl (a.X + a.Width) = b.X → AABB.Overlaps fl a b = false) ∧
    (a.X < fl (a.X + a.Width) → a.Y < fl (a.Y + a.Height) → AABB.Overlaps fl a a = true) ∧
    (0 < a.Width → 0 < a.Height → AABB.Overlaps id a a = true) := by
  refine ⟨?_, ?_, ?_, ?_⟩
  · rw [Bool.eq_iff_iff]
    simp only [AABB.Overlaps, Bool.and_eq_true, decide_eq_true_eq, gt_iff_lt]
    tauto
  · intro htouch
    simp only [AABB.Overlaps, htouch, gt_iff_lt, lt_self_iff_false, decide_False,
      Bool.and_false, Bool.false_and]
  · intro hx hy
    simp only [AABB.Overlaps, Bool.and_eq_true, decide_eq_true_eq, gt_iff_lt]
    exact ⟨⟨⟨hx, hx⟩, hy⟩, hy⟩
  · intro hw hh
    simp only [AABB.Overlaps, Bool.and_eq_true, decide_eq_true_eq, gt_iff_lt, id]
    exact ⟨⟨⟨by linarith, by linarith⟩, by linarith⟩, by linarith⟩

/-- C15 (amended) at the boxes `(0, 0, 16, 16)` and `(16, 0, 16, 16)` with exact additions:
they touch along an edge and do not overlap, and the first one overlaps itself. -/
theorem Overlaps_symm_strict_witness :
    AABB.Overlaps id { X := 0, Y := 0, Width := 16, Height := 16 }
      { X := 16, Y := 0, Width := 16, Height := 16 } = false ∧
    AABB.Overlaps id { X := 0, Y := 0, Width := 16, Height := 16 }
      { X := 0, Y := 0, Width := 16, Height := 16 } = true :=
  ⟨(Overlaps_symm_strict id { X := 0, Y := 0, Width := 16, Height := 16 }
      { X := 16, Y := 0, Width := 16, Height := 16 }).2.1 (by norm_num),
   (Overlaps_symm_strict id { X := 0, Y := 0, Width := 16, Height := 16 }
      { X := 0, Y := 0, Width := 16, Height := 16 }).2.2.2 (by norm_num) (by norm_num)⟩

end GoClaw
